import Mathlib

/-!
Verification development for the EagleEyeLite audit engine.

This file gives a shallow embedding, in Lean 4, of the parts of the
repository that the specification talks about:

* `eagleeye/audit/evaluator.py` — the `LogicEvaluator` class: schema
  preprocessing, textual value substitution, the missing-data check, the
  restricted AST interpreter (`_eval_node`), the simple-comparison
  fallback (`_simple_eval`) and the best-effort extraction helpers.
* `eagleeye/models/finding.py` — `Finding` and `AuditReport.add_finding`.
* `eagleeye/models/rule.py` and `eagleeye/rag/indexer.py` — JSONL rule
  loading.
* `eagleeye/graph/state.py`, `eagleeye/graph/nodes.py`,
  `eagleeye/graph/workflow.py` — the LangGraph audit workflow in both
  invoke (batch) and stream modes.

Modelling conventions:

* Python numbers (int and float) are modelled by unnormalised rational
  pairs (`PyNum`), extended with positive infinity, negative infinity
  and NaN values where float arithmetic produces them.  Binary float
  rounding is not modelled; the expressions in scope use small decimal
  literals and exact record values, for which rational arithmetic agrees
  with Python.
* All recursion is structural on an explicit fuel argument so that every
  definition evaluates inside the kernel; the top-level entry points
  supply fuel that is generously larger than any quantity the Python
  code could recurse over for the given input.
* Python exceptions inside the evaluator are modelled by
  `Except String`; the `try`/`except` in `LogicEvaluator.evaluate` is
  the `Except` case split in `evaluate` below.
-/

namespace EagleEye

/-- A Python number (int or float), kept as an unnormalised fraction
`n / d` with `d` intended positive.  Equality and ordering are always
taken via cross multiplication, never structurally, mirroring numeric
equality in Python. -/
structure PyNum where
  n : Int
  d : Nat
deriving DecidableEq, Repr

namespace PyNum

def ofInt (i : Int) : PyNum := ⟨i, 1⟩

def ofNat (k : Nat) : PyNum := ⟨Int.ofNat k, 1⟩

def add (a b : PyNum) : PyNum := ⟨a.n * b.d + b.n * a.d, a.d * b.d⟩

def sub (a b : PyNum) : PyNum := ⟨a.n * b.d - b.n * a.d, a.d * b.d⟩

def mul (a b : PyNum) : PyNum := ⟨a.n * b.n, a.d * b.d⟩

def neg (a : PyNum) : PyNum := ⟨-a.n, a.d⟩

def absQ (a : PyNum) : PyNum := ⟨Int.ofNat a.n.natAbs, a.d⟩

def isZero (a : PyNum) : Bool := a.n == 0

def isNeg (a : PyNum) : Bool := a.n < 0

/-- Division, assuming the divisor is nonzero (the caller guards zero,
as `_eval_node` does for `ast.Div`). -/
def divQ (a b : PyNum) : PyNum :=
  if b.n < 0 then ⟨-(a.n * b.d), a.d * b.n.natAbs⟩
  else ⟨a.n * b.d, a.d * b.n.natAbs⟩

def ltQ (a b : PyNum) : Bool := a.n * b.d < b.n * a.d

def leQ (a b : PyNum) : Bool := a.n * b.d ≤ b.n * a.d

def eqQ (a b : PyNum) : Bool := a.n * b.d == b.n * a.d

/-- Mathematical floor of the fraction, matching Python `math.floor`
semantics used implicitly by the `%` operator. -/
def floorQ (a : PyNum) : Int := Int.fdiv a.n (Int.ofNat a.d)

/-- Python `%` on numbers: `a - b * floor(a / b)`, for nonzero `b`. -/
def modQ (a b : PyNum) : PyNum :=
  a.sub (b.mul (ofInt (floorQ (a.divQ b))))

def powNat (a : PyNum) (k : Nat) : PyNum := ⟨a.n ^ k, a.d ^ k⟩

/-- True if the fraction is an exact integer. -/
def isInt (a : PyNum) : Bool := a.n.emod (Int.ofNat a.d) == 0

/-- The integer value of an exact-integer fraction. -/
def toInt (a : PyNum) : Int := a.n.ediv (Int.ofNat a.d)

end PyNum

/-- A Python runtime value, as the evaluator can produce or consume it:
numbers (with the float infinities and NaN), booleans, strings, `None`,
lists and tuples. -/
inductive Val where
  | num (q : PyNum)
  | inf
  | ninf
  | nan
  | pbool (b : Bool)
  | pstr (s : String)
  | vnone
  | vlist (elts : List Val)
  | vtup (elts : List Val)

/-- A financial record: an insertion-ordered mapping from field names to
values, mirroring the `financial_data` dict. -/
abbrev Record := List (String × Val)

/-- First-match association lookup, mirroring `dict.get`. -/
def assocFind (k : String) (d : Record) : Option Val :=
  (d.find? (fun p => p.1 == k)).map (fun p => p.2)

def Val.isNoneV : Val → Bool
  | .vnone => true
  | _ => false

/-- Python truthiness (`bool(x)`), total on all modelled values. -/
def truthy : Val → Bool
  | .num q => !q.isZero
  | .inf => true
  | .ninf => true
  | .nan => true
  | .pbool b => b
  | .pstr s => s ≠ ""
  | .vnone => false
  | .vlist l => !l.isEmpty
  | .vtup l => !l.isEmpty

/-- The `right == 0` test guarding division in `_eval_node`: true for
numeric zero and for `False` (which equals `0` in Python). -/
def pyIsZero : Val → Bool
  | .num q => q.isZero
  | .pbool b => !b
  | _ => false

/-- Numeric view of a value for arithmetic and ordered comparison:
finite rational, plus or minus infinity, or NaN.  Booleans coerce to
0 and 1 as in Python. -/
inductive ExtNum where
  | fin (q : PyNum)
  | pinf
  | minf
  | nan
deriving Repr

def toExt : Val → Option ExtNum
  | .num q => some (.fin q)
  | .inf => some .pinf
  | .ninf => some .minf
  | .nan => some .nan
  | .pbool b => some (.fin (.ofInt (if b then 1 else 0)))
  | _ => none

def extLt : ExtNum → ExtNum → Bool
  | .fin a, .fin b => a.ltQ b
  | .fin _, .pinf => true
  | .minf, .fin _ => true
  | .minf, .pinf => true
  | _, _ => false

def extEq : ExtNum → ExtNum → Bool
  | .fin a, .fin b => a.eqQ b
  | .pinf, .pinf => true
  | .minf, .minf => true
  | _, _ => false

def extLe (a b : ExtNum) : Bool := extLt a b || extEq a b

/-- Numeric result back to a value. -/
def ExtNum.toVal : ExtNum → Val
  | .fin q => .num q
  | .pinf => .inf
  | .minf => .ninf
  | .nan => .nan

def extNeg : ExtNum → ExtNum
  | .fin q => .fin q.neg
  | .pinf => .minf
  | .minf => .pinf
  | .nan => .nan

def extAdd : ExtNum → ExtNum → ExtNum
  | .fin a, .fin b => .fin (a.add b)
  | .fin _, .pinf => .pinf
  | .fin _, .minf => .minf
  | .pinf, .fin _ => .pinf
  | .minf, .fin _ => .minf
  | .pinf, .pinf => .pinf
  | .minf, .minf => .minf
  | _, _ => .nan

def extSub (a b : ExtNum) : ExtNum := extAdd a (extNeg b)

def extMul : ExtNum → ExtNum → ExtNum
  | .fin a, .fin b => .fin (a.mul b)
  | .fin a, .pinf => if a.isZero then .nan else if a.isNeg then .minf else .pinf
  | .fin a, .minf => if a.isZero then .nan else if a.isNeg then .pinf else .minf
  | .pinf, .fin a => if a.isZero then .nan else if a.isNeg then .minf else .pinf
  | .minf, .fin a => if a.isZero then .nan else if a.isNeg then .pinf else .minf
  | .pinf, .pinf => .pinf
  | .pinf, .minf => .minf
  | .minf, .pinf => .minf
  | .minf, .minf => .pinf
  | _, _ => .nan

/-- Division for a divisor that already passed the `right == 0` guard.
A finite divisor reaching here is nonzero. -/
def extDiv : ExtNum → ExtNum → ExtNum
  | .fin a, .fin b => .fin (a.divQ b)
  | .fin _, .pinf => .fin (.ofInt 0)
  | .fin _, .minf => .fin (.ofInt 0)
  | .pinf, .fin b => if b.isNeg then .minf else .pinf
  | .minf, .fin b => if b.isNeg then .pinf else .minf
  | _, _ => .nan

/-- Python `%` for a divisor that passed the zero guard; the cases with
an infinite or NaN operand are coarsely modelled as NaN. -/
def extMod : ExtNum → ExtNum → ExtNum
  | .fin a, .fin b => .fin (a.modQ b)
  | _, _ => .nan

/-! ### Character classes and basic text helpers

All text processing is done on `List Char`, the character data of the
Python strings, so that everything reduces inside the kernel. -/

/-- A CJK ideograph as matched by the regex range `[一-鿿]`
in `_has_missing_data` and `_get_missing_fields`. -/
def isCJK (c : Char) : Bool := 0x4e00 ≤ c.toNat && c.toNat ≤ 0x9fff

/-- A regex word character (`\w`) for the identifiers this code base
uses: ASCII alphanumerics, underscore, and CJK ideographs. -/
def isWordChar (c : Char) : Bool := c.isAlphanum || c == '_' || isCJK c

def isDigitCh (c : Char) : Bool := c.isDigit

def isSpaceCh (c : Char) : Bool := c.isWhitespace

/-- Does `pat` occur as a prefix of `s`? -/
def isPrefixOfL : List Char → List Char → Bool
  | [], _ => true
  | _ :: _, [] => false
  | p :: ps, c :: cs => p == c && isPrefixOfL ps cs

/-- Substring containment (`pat in s` on Python strings). -/
def containsSub (pat : List Char) : List Char → Bool
  | [] => isPrefixOfL pat []
  | c :: cs => isPrefixOfL pat (c :: cs) || containsSub pat cs

/-- Drop the first `k` characters. -/
def dropL : Nat → List Char → List Char
  | 0, s => s
  | _, [] => []
  | k + 1, _ :: cs => dropL k cs

/-- Replace every occurrence of `pat` (non-overlapping, left to right)
by `repl`, mirroring Python `str.replace`. -/
def replaceAllL (fuel : Nat) (pat repl : List Char) (s : List Char) : List Char :=
  match fuel, s with
  | 0, s => s
  | _ + 1, [] => []
  | f + 1, c :: cs =>
    if pat ≠ [] && isPrefixOfL pat (c :: cs) then
      repl ++ replaceAllL f pat repl (dropL pat.length (c :: cs))
    else
      c :: replaceAllL f pat repl cs

/-- Split on every occurrence of a (nonempty) separator, mirroring
Python `str.split(sep)`. -/
def splitOnL (fuel : Nat) (sep : List Char) (s : List Char) : List (List Char) :=
  match fuel, s with
  | 0, s => [s]
  | _ + 1, [] => [[]]
  | f + 1, c :: cs =>
    if isPrefixOfL sep (c :: cs) then
      [] :: splitOnL f sep (dropL sep.length (c :: cs))
    else
      match splitOnL f sep cs with
      | [] => [[c]]
      | h :: t => (c :: h) :: t

/-- Strip leading whitespace. -/
def lstripL : List Char → List Char
  | [] => []
  | c :: cs => if isSpaceCh c then lstripL cs else c :: cs

/-- Strip trailing whitespace. -/
def rstripL (s : List Char) : List Char := (lstripL s.reverse).reverse

/-- Python `str.strip()`. -/
def stripL (s : List Char) : List Char := rstripL (lstripL s)

/-- Python `str.split()` with no argument: split on whitespace runs,
discarding empty pieces. -/
def splitWsL (fuel : Nat) (s : List Char) : List (List Char) :=
  match fuel, s with
  | 0, _ => []
  | _ + 1, [] => []
  | f + 1, c :: cs =>
    if isSpaceCh c then splitWsL f cs
    else
      match splitWsL f cs with
      | [] => [[c]]
      | h :: t =>
        match cs with
        | [] => [[c]]
        | c2 :: _ => if isSpaceCh c2 then [c] :: h :: t else (c :: h) :: t

/-- Join pieces with a separator. -/
def joinL (sep : List Char) : List (List Char) → List Char
  | [] => []
  | [p] => p
  | p :: ps => p ++ sep ++ joinL sep ps

/-! ### Printing values as Python literal text

`_substitute_values` splices `str(value)` (or a quoted form) into the
expression text; list elements render with `repr`. -/

def digitChar (d : Nat) : Char := Char.ofNat (48 + d)

def natDigitsGo (fuel : Nat) (m : Nat) (acc : List Char) : List Char :=
  match fuel with
  | 0 => acc
  | f + 1 =>
    if m < 10 then digitChar m :: acc
    else natDigitsGo f (m / 10) (digitChar (m % 10) :: acc)

def natRepr (m : Nat) : List Char := natDigitsGo 64 m []

def intRepr (i : Int) : List Char :=
  if i < 0 then '-' :: natRepr i.natAbs else natRepr i.natAbs

/-- Search for the least `k` between 1 and `fuel` such that scaling by
`10 ^ k` makes the fraction an integer. -/
def decScaleGo (fuel : Nat) (k : Nat) (q : PyNum) : Option Nat :=
  match fuel with
  | 0 => none
  | f + 1 =>
    if (q.n * Int.ofNat (10 ^ k)).emod (Int.ofNat q.d) == 0 then some k
    else decScaleGo f (k + 1) q

/-- Render a number the way Python prints the record values appearing in
this development: integers without a decimal point, terminating decimals
with the shortest exact expansion.  (Fractions with no short decimal
expansion cannot arise from substituted record values; they get a
fallback spelling.) -/
def qRepr (q : PyNum) : List Char :=
  if q.d == 0 then '0' :: []
  else if q.isInt then intRepr q.toInt
  else
    match decScaleGo 40 1 q with
    | some k =>
      let scaled : Int := (q.n * Int.ofNat (10 ^ k)).ediv (Int.ofNat q.d)
      let m := scaled.natAbs
      let ip := m / 10 ^ k
      let fr := m % 10 ^ k
      let frDigits := natRepr fr
      let pad := List.replicate (k - frDigits.length) '0'
      (if scaled < 0 then ['-'] else []) ++ natRepr ip ++ '.' :: (pad ++ frDigits)
    | none => '(' :: intRepr q.n ++ '/' :: natRepr q.d ++ [')']

def squote : Char := Char.ofNat 39

/-- `repr` of a value, as used for list elements inside `str(list)`. -/
def pyReprV (fuel : Nat) (v : Val) : List Char :=
  match fuel, v with
  | 0, _ => []
  | _ + 1, .num q => qRepr q
  | _ + 1, .inf => "inf".data
  | _ + 1, .ninf => "-inf".data
  | _ + 1, .nan => "nan".data
  | _ + 1, .pbool b => if b then "True".data else "False".data
  | _ + 1, .pstr s => squote :: s.data ++ [squote]
  | _ + 1, .vnone => "None".data
  | f + 1, .vlist es => '[' :: joinL ", ".data (es.map (pyReprV f)) ++ [']']
  | f + 1, .vtup es =>
    match es with
    | [e] => '(' :: pyReprV f e ++ ",)".data
    | _ => '(' :: joinL ", ".data (es.map (pyReprV f)) ++ [')']

/-- The replacement text `_substitute_values` splices in for a value:
`"True"`/`"False"` for booleans, the double-quoted text for strings and
`str(value)` otherwise. -/
def printVal (fuel : Nat) (v : Val) : List Char :=
  match v with
  | .pbool b => if b then "True".data else "False".data
  | .pstr s => '"' :: s.data ++ ['"']
  | _ => pyReprV fuel v

/-! ### Tokenizer

`ast.parse(expression, mode=eval)` is modelled by a tokenizer and a
recursive-descent parser for exactly the expression grammar the
evaluator can meet: literals, identifiers, arithmetic, comparisons,
boolean connectives, the conditional expression, calls, lists, tuples
and comprehensions.  A lexical error or grammar violation yields `none`,
the counterpart of `SyntaxError`. -/

inductive Tok where
  | num (q : PyNum)
  | lit (s : String)
  | ident (s : String)
  | sym (s : String)
deriving DecidableEq, Repr

def identStartCh (c : Char) : Bool := c.isAlpha || c == '_' || isCJK c

/-- Maximal run of decimal digits. -/
def readDigits : List Char → List Char × List Char
  | [] => ([], [])
  | c :: cs =>
    if isDigitCh c then
      let (ds, r) := readDigits cs
      (c :: ds, r)
    else ([], c :: cs)

def digitsVal : List Char → Nat → Nat
  | [], acc => acc
  | c :: cs, acc => digitsVal cs (acc * 10 + (c.toNat - 48))

/-- Maximal run of identifier characters. -/
def readIdentRun : List Char → List Char × List Char
  | [] => ([], [])
  | c :: cs =>
    if isWordChar c then
      let (w, r) := readIdentRun cs
      (c :: w, r)
    else ([], c :: cs)

/-- Read a string literal body up to the closing quote `q`. -/
def readLit (q : Char) : List Char → Option (List Char × List Char)
  | [] => none
  | c :: cs =>
    if c == q then some ([], cs)
    else (readLit q cs).map (fun p => (c :: p.1, p.2))

/-- Read one operator or punctuation token. -/
def readSym : List Char → Option (String × List Char)
  | '*' :: '*' :: r => some ("**", r)
  | '/' :: '/' :: r => some ("//", r)
  | '<' :: '=' :: r => some ("<=", r)
  | '>' :: '=' :: r => some (">=", r)
  | '=' :: '=' :: r => some ("==", r)
  | '!' :: '=' :: r => some ("!=", r)
  | '+' :: r => some ("+", r)
  | '-' :: r => some ("-", r)
  | '*' :: r => some ("*", r)
  | '/' :: r => some ("/", r)
  | '%' :: r => some ("%", r)
  | '(' :: r => some ("(", r)
  | ')' :: r => some (")", r)
  | '[' :: r => some ("[", r)
  | ']' :: r => some ("]", r)
  | ',' :: r => some (",", r)
  | '<' :: r => some ("<", r)
  | '>' :: r => some (">", r)
  | _ => none

def mkFrac (ip fr : List Char) : PyNum :=
  let k := fr.length
  ⟨Int.ofNat (digitsVal ip 0 * 10 ^ k + digitsVal fr 0), 10 ^ k⟩

def tokenize (fuel : Nat) (s : List Char) : Option (List Tok) :=
  match fuel, s with
  | 0, _ => none
  | _ + 1, [] => some []
  | f + 1, c :: cs =>
    if isSpaceCh c then tokenize f cs
    else if isDigitCh c then
      let (ds, r1) := readDigits (c :: cs)
      match r1 with
      | '.' :: r2 =>
        let (fs, r3) := readDigits r2
        (tokenize f r3).map (fun ts => Tok.num (mkFrac ds fs) :: ts)
      | _ => (tokenize f r1).map (fun ts => Tok.num ⟨Int.ofNat (digitsVal ds 0), 1⟩ :: ts)
    else if c == '.' then
      match cs with
      | d :: _ =>
        if isDigitCh d then
          let (fs, r) := readDigits cs
          (tokenize f r).map (fun ts => Tok.num (mkFrac [] fs) :: ts)
        else none
      | [] => none
    else if c == '"' || c == squote then
      match readLit c cs with
      | some (sl, r) => (tokenize f r).map (fun ts => Tok.lit (String.mk sl) :: ts)
      | none => none
    else if identStartCh c then
      let (w, r) := readIdentRun (c :: cs)
      (tokenize f r).map (fun ts => Tok.ident (String.mk w) :: ts)
    else
      match readSym (c :: cs) with
      | some (sy, r) => (tokenize f r).map (fun ts => Tok.sym sy :: ts)
      | none => none

/-! ### Abstract syntax -/

inductive Bop where
  | addO | subO | mulO | divO | modO | powO | fdivO
deriving DecidableEq, Repr

inductive Uop where
  | usub | uadd | notO
deriving DecidableEq, Repr

inductive CmpOp where
  | ltO | leO | gtO | geO | eqO | neO | inO | notInO | isO | isNotO
deriving DecidableEq, Repr

inductive Ast where
  | const (v : Val)
  | name (id : String)
  | listE (es : List Ast)
  | tupE (es : List Ast)
  | binop (op : Bop) (l r : Ast)
  | unop (op : Uop) (e : Ast)
  | compare (l : Ast) (chain : List (CmpOp × Ast))
  | boolop (isAnd : Bool) (vs : List Ast)
  | call (fn : Ast) (args : List Ast)
  | ifexp (test body orelse : Ast)
  | genexp (elt : Ast) (var : String) (iter : Ast) (ifs : List Ast)
  | listcomp (elt : Ast) (var : String) (iter : Ast) (ifs : List Ast)

/-- Identifiers that are reserved words of the supported grammar and so
cannot be plain names. -/
def isKeywordId (w : String) : Bool :=
  w == "if" || w == "else" || w == "for" || w == "in" || w == "is" ||
  w == "and" || w == "or" || w == "not"

/-- Read one comparison operator (possibly two tokens long). -/
def readCmpOp : List Tok → Option (CmpOp × List Tok)
  | .sym "<=" :: r => some (.leO, r)
  | .sym ">=" :: r => some (.geO, r)
  | .sym "==" :: r => some (.eqO, r)
  | .sym "!=" :: r => some (.neO, r)
  | .sym "<" :: r => some (.ltO, r)
  | .sym ">" :: r => some (.gtO, r)
  | .ident "in" :: r => some (.inO, r)
  | .ident "not" :: .ident "in" :: r => some (.notInO, r)
  | .ident "is" :: .ident "not" :: r => some (.isNotO, r)
  | .ident "is" :: r => some (.isO, r)
  | _ => none

mutual

/-- Conditional expression: `or_test [if or_test else expression]`. -/
def pExpr : Nat → List Tok → Option (Ast × List Tok)
  | 0, _ => none
  | f + 1, ts => do
    let (a, r) ← pOr f ts
    match r with
    | .ident "if" :: r2 => do
      let (c, r3) ← pOr f r2
      match r3 with
      | .ident "else" :: r4 => do
        let (e, r5) ← pExpr f r4
        pure (.ifexp c a e, r5)
      | _ => none
    | _ => pure (a, r)

def pOr : Nat → List Tok → Option (Ast × List Tok)
  | 0, _ => none
  | f + 1, ts => do
    let (a, r) ← pAnd f ts
    pOrRest f [a] r

def pOrRest : Nat → List Ast → List Tok → Option (Ast × List Tok)
  | 0, _, _ => none
  | f + 1, acc, ts =>
    match ts with
    | .ident "or" :: r2 => do
      let (b, r3) ← pAnd f r2
      pOrRest f (acc ++ [b]) r3
    | _ =>
      match acc with
      | [a] => some (a, ts)
      | _ => some (.boolop false acc, ts)

def pAnd : Nat → List Tok → Option (Ast × List Tok)
  | 0, _ => none
  | f + 1, ts => do
    let (a, r) ← pNot f ts
    pAndRest f [a] r

def pAndRest : Nat → List Ast → List Tok → Option (Ast × List Tok)
  | 0, _, _ => none
  | f + 1, acc, ts =>
    match ts with
    | .ident "and" :: r2 => do
      let (b, r3) ← pNot f r2
      pAndRest f (acc ++ [b]) r3
    | _ =>
      match acc with
      | [a] => some (a, ts)
      | _ => some (.boolop true acc, ts)

def pNot : Nat → List Tok → Option (Ast × List Tok)
  | 0, _ => none
  | f + 1, ts =>
    match ts with
    | .ident "not" :: r => do
      let (e, r2) ← pNot f r
      pure (.unop .notO e, r2)
    | _ => pCmp f ts

def pCmp : Nat → List Tok → Option (Ast × List Tok)
  | 0, _ => none
  | f + 1, ts => do
    let (a, r) ← pArith f ts
    pCmpRest f a [] r

def pCmpRest : Nat → Ast → List (CmpOp × Ast) → List Tok → Option (Ast × List Tok)
  | 0, _, _, _ => none
  | f + 1, a, chain, ts =>
    match readCmpOp ts with
    | some (op, r2) => do
      let (b, r3) ← pArith f r2
      pCmpRest f a (chain ++ [(op, b)]) r3
    | none =>
      match chain with
      | [] => some (a, ts)
      | _ => some (.compare a chain, ts)

def pArith : Nat → List Tok → Option (Ast × List Tok)
  | 0, _ => none
  | f + 1, ts => do
    let (a, r) ← pTerm f ts
    pArithRest f a r

def pArithRest : Nat → Ast → List Tok → Option (Ast × List Tok)
  | 0, _, _ => none
  | f + 1, a, ts =>
    match ts with
    | .sym "+" :: r2 => do
      let (b, r3) ← pTerm f r2
      pArithRest f (.binop .addO a b) r3
    | .sym "-" :: r2 => do
      let (b, r3) ← pTerm f r2
      pArithRest f (.binop .subO a b) r3
    | _ => some (a, ts)

def pTerm : Nat → List Tok → Option (Ast × List Tok)
  | 0, _ => none
  | f + 1, ts => do
    let (a, r) ← pFactor f ts
    pTermRest f a r

def pTermRest : Nat → Ast → List Tok → Option (Ast × List Tok)
  | 0, _, _ => none
  | f + 1, a, ts =>
    match ts with
    | .sym "*" :: r2 => do
      let (b, r3) ← pFactor f r2
      pTermRest f (.binop .mulO a b) r3
    | .sym "/" :: r2 => do
      let (b, r3) ← pFactor f r2
      pTermRest f (.binop .divO a b) r3
    | .sym "%" :: r2 => do
      let (b, r3) ← pFactor f r2
      pTermRest f (.binop .modO a b) r3
    | .sym "//" :: r2 => do
      let (b, r3) ← pFactor f r2
      pTermRest f (.binop .fdivO a b) r3
    | _ => some (a, ts)

def pFactor : Nat → List Tok → Option (Ast × List Tok)
  | 0, _ => none
  | f + 1, ts =>
    match ts with
    | .sym "-" :: r => do
      let (e, r2) ← pFactor f r
      pure (.unop .usub e, r2)
    | .sym "+" :: r => do
      let (e, r2) ← pFactor f r
      pure (.unop .uadd e, r2)
    | _ => pPower f ts

def pPower : Nat → List Tok → Option (Ast × List Tok)
  | 0, _ => none
  | f + 1, ts => do
    let (a, r) ← pAtomTrail f ts
    match r with
    | .sym "**" :: r2 => do
      let (e, r3) ← pFactor f r2
      pure (.binop .powO a e, r3)
    | _ => pure (a, r)

def pAtomTrail : Nat → List Tok → Option (Ast × List Tok)
  | 0, _ => none
  | f + 1, ts => do
    let (a, r) ← pAtom f ts
    pTrail f a r

def pTrail : Nat → Ast → List Tok → Option (Ast × List Tok)
  | 0, _, _ => none
  | f + 1, a, ts =>
    match ts with
    | .sym "(" :: r2 =>
      match r2 with
      | .sym ")" :: r3 => pTrail f (.call a []) r3
      | _ => do
        let (e, r3) ← pExpr f r2
        match r3 with
        | .ident "for" :: r4 => do
          let (g, r5) ← pCompTail f e r4
          match r5 with
          | .sym ")" :: r6 => pTrail f (.call a [g]) r6
          | _ => none
        | _ => do
          let (args, r4) ← pArgsRest f [e] r3
          pTrail f (.call a args) r4
    | _ => some (a, ts)

def pArgsRest : Nat → List Ast → List Tok → Option (List Ast × List Tok)
  | 0, _, _ => none
  | f + 1, acc, ts =>
    match ts with
    | .sym "," :: r2 => do
      let (e, r3) ← pExpr f r2
      pArgsRest f (acc ++ [e]) r3
    | .sym ")" :: r2 => some (acc, r2)
    | _ => none

/-- After `elt for` has been consumed: parse `name in or_test (if
or_test)*` and build the generator body. -/
def pCompTail : Nat → Ast → List Tok → Option (Ast × List Tok)
  | 0, _, _ => none
  | f + 1, elt, ts =>
    match ts with
    | .ident v :: .ident "in" :: r2 =>
      if isKeywordId v || v == "True" || v == "False" || v == "None" then none
      else do
        let (it, r3) ← pOr f r2
        let (ifs, r4) ← pIfs f [] r3
        pure (.genexp elt v it ifs, r4)
    | _ => none

def pIfs : Nat → List Ast → List Tok → Option (List Ast × List Tok)
  | 0, _, _ => none
  | f + 1, acc, ts =>
    match ts with
    | .ident "if" :: r2 => do
      let (c, r3) ← pOr f r2
      pIfs f (acc ++ [c]) r3
    | _ => some (acc, ts)

def pAtom : Nat → List Tok → Option (Ast × List Tok)
  | 0, _ => none
  | f + 1, ts =>
    match ts with
    | .num q :: r => some (.const (.num q), r)
    | .lit s :: r => some (.const (.pstr s), r)
    | .ident "True" :: r => some (.const (.pbool true), r)
    | .ident "False" :: r => some (.const (.pbool false), r)
    | .ident "None" :: r => some (.const .vnone, r)
    | .ident w :: r => if isKeywordId w then none else some (.name w, r)
    | .sym "(" :: r => do
      let (e, r2) ← pExpr f r
      match r2 with
      | .sym ")" :: r3 => some (e, r3)
      | .sym "," :: r3 => pTupRest f [e] r3
      | _ => none
    | .sym "[" :: r =>
      match r with
      | .sym "]" :: r2 => some (.listE [], r2)
      | _ => do
        let (e, r2) ← pExpr f r
        match r2 with
        | .ident "for" :: r3 => do
          let (g, r4) ← pCompTail f e r3
          match g, r4 with
          | .genexp elt v it ifs, .sym "]" :: r5 => some (.listcomp elt v it ifs, r5)
          | _, _ => none
        | _ => pListRest f [e] r2
    | _ => none

def pTupRest : Nat → List Ast → List Tok → Option (Ast × List Tok)
  | 0, _, _ => none
  | f + 1, acc, ts =>
    match ts with
    | .sym ")" :: r2 => some (.tupE acc, r2)
    | _ => do
      let (e, r2) ← pExpr f ts
      match r2 with
      | .sym "," :: r3 => pTupRest f (acc ++ [e]) r3
      | .sym ")" :: r3 => some (.tupE (acc ++ [e]), r3)
      | _ => none

def pListRest : Nat → List Ast → List Tok → Option (Ast × List Tok)
  | 0, _, _ => none
  | f + 1, acc, ts =>
    match ts with
    | .sym "]" :: r2 => some (.listE acc, r2)
    | .sym "," :: .sym "]" :: r2 => some (.listE acc, r2)
    | .sym "," :: r2 => do
      let (e, r3) ← pExpr f r2
      pListRest f (acc ++ [e]) r3
    | _ => none

end

/-- Remaining elements of a bare top-level tuple. -/
def pTupTop : Nat → List Ast → List Tok → Option (Ast × List Tok)
  | 0, _, _ => none
  | f + 1, acc, ts => do
    let (e, r2) ← pExpr f ts
    match r2 with
    | .sym "," :: [] => some (.tupE (acc ++ [e]), [])
    | .sym "," :: r3 => pTupTop f (acc ++ [e]) r3
    | _ => some (.tupE (acc ++ [e]), r2)

/-- Top-level parse in `eval` mode, including the bare top-level tuple
form `a, b`.  Returns `none` exactly when `ast.parse` raises
`SyntaxError` in the model. -/
def parseToks (fuel : Nat) (ts : List Tok) : Option Ast := do
  let (a, r) ← pExpr fuel ts
  match r with
  | [] => some a
  | .sym "," :: [] => some (.tupE [a])
  | .sym "," :: r2 => do
    let (t, r3) ← pTupTop fuel [a] r2
    match r3 with
    | [] => some t
    | _ => none
  | _ => none

/-- Parse an expression string: tokenize, parse, require all input
consumed. -/
def parseExpression (s : List Char) : Option Ast := do
  let ts ← tokenize (s.length + 1) s
  parseToks (16 * (ts.length + 2)) ts

/-! ### The restricted interpreter (`LogicEvaluator._eval_node`)

Each raise of `ValueError`/`TypeError`/`ZeroDivisionError` in the Python
interpreter is an `Except.error`; the fuel-exhaustion error is a model
artefact that generous top-level fuel keeps unreachable. -/

mutual

/-- Python `==` between values (`operator.eq`), total. -/
def pyEqF : Nat → Val → Val → Bool
  | 0, _, _ => false
  | f + 1, a, b =>
    match toExt a, toExt b with
    | some x, some y => extEq x y
    | _, _ =>
      match a, b with
      | .pstr s, .pstr t => s == t
      | .vnone, .vnone => true
      | .vlist xs, .vlist ys => pyEqListF f xs ys
      | .vtup xs, .vtup ys => pyEqListF f xs ys
      | _, _ => false

/-- Elementwise Python equality of two sequences. -/
def pyEqListF : Nat → List Val → List Val → Bool
  | 0, _, _ => false
  | _ + 1, [], [] => true
  | f + 1, x :: xs, y :: ys => pyEqF f x y && pyEqListF f xs ys
  | _ + 1, _, _ => false

end

/-- Python `is`: only the identity facts the evaluator can rely on
(`None` and interned booleans); other pairs are distinct objects after
substitution. -/
def pyIs : Val → Val → Bool
  | .vnone, .vnone => true
  | .pbool a, .pbool b => a == b
  | _, _ => false

def charListLt : List Char → List Char → Bool
  | [], [] => false
  | [], _ :: _ => true
  | _ :: _, [] => false
  | a :: as, b :: bs => if a == b then charListLt as bs else decide (a < b)

/-- An ordered comparison (`< <= > >=`): numeric against numeric or
string against string; anything else is a `TypeError`. -/
def ordCmp (op : CmpOp) (lv rv : Val) : Except String Bool :=
  match toExt lv, toExt rv with
  | some a, some b =>
    match op with
    | .ltO => .ok (extLt a b)
    | .leO => .ok (extLe a b)
    | .gtO => .ok (extLt b a)
    | .geO => .ok (extLe b a)
    | _ => .error "TypeError: not an ordered comparison"
  | _, _ =>
    match lv, rv with
    | .pstr s, .pstr t =>
      match op with
      | .ltO => .ok (charListLt s.data t.data)
      | .leO => .ok (charListLt s.data t.data || s == t)
      | .gtO => .ok (charListLt t.data s.data)
      | .geO => .ok (charListLt t.data s.data || s == t)
      | _ => .error "TypeError: not an ordered comparison"
    | _, _ => .error "TypeError: comparison not supported between operands"

/-- Python membership `x in y` for sequences and strings. -/
def pyContains (f : Nat) (lv rv : Val) : Except String Bool :=
  match rv with
  | .vlist xs => .ok (xs.any (fun x => pyEqF f lv x))
  | .vtup xs => .ok (xs.any (fun x => pyEqF f lv x))
  | .pstr t =>
    match lv with
    | .pstr p => .ok (containsSub p.data t.data)
    | _ => .error "TypeError: in requires string as left operand"
  | _ => .error "TypeError: argument is not iterable"

/-- One comparison operator application inside the `ast.Compare` loop. -/
def applyCmpF (f : Nat) (op : CmpOp) (lv rv : Val) : Except String Bool :=
  match op with
  | .ltO | .leO | .gtO | .geO => ordCmp op lv rv
  | .eqO => .ok (pyEqF f lv rv)
  | .neO => .ok (!pyEqF f lv rv)
  | .inO => pyContains f lv rv
  | .notInO =>
    match pyContains f lv rv with
    | .ok b => .ok (!b)
    | .error e => .error e
  | .isO => .ok (pyIs lv rv)
  | .isNotO => .ok (!pyIs lv rv)

/-- Exponentiation (`operator.pow`), restricted to integer exponents;
Python float powers with non-integer exponents are outside the model. -/
def applyPow (a b : ExtNum) : Except String Val :=
  match b with
  | .fin q =>
    if q.isInt then
      let k := q.toInt
      if 0 ≤ k then
        match a with
        | .fin p => .ok (.num (p.powNat k.toNat))
        | .pinf => .ok (if k == 0 then .num (.ofInt 1) else .inf)
        | .minf =>
          .ok (if k == 0 then .num (.ofInt 1)
               else if k.toNat % 2 == 0 then .inf else .ninf)
        | .nan => .ok (if k == 0 then .num (.ofInt 1) else .nan)
      else
        match a with
        | .fin p =>
          if p.isZero then .error "0.0 cannot be raised to a negative power"
          else .ok (.num ((PyNum.ofInt 1).divQ (p.powNat k.natAbs)))
        | .pinf => .ok (.num (.ofInt 0))
        | .minf => .ok (.num (.ofInt 0))
        | .nan => .ok .nan
    else .error "non-integer exponent not modelled"
  | _ => .error "infinite exponent not modelled"

/-- Arithmetic (`SAFE_OPERATORS` application for `ast.BinOp`), after the
division-by-zero guard has been handled by the caller. -/
def applyArith (op : Bop) (lv rv : Val) : Except String Val :=
  match toExt lv, toExt rv with
  | some a, some b =>
    match op with
    | .addO => .ok (extAdd a b).toVal
    | .subO => .ok (extSub a b).toVal
    | .mulO => .ok (extMul a b).toVal
    | .divO => .ok (extDiv a b).toVal
    | .modO =>
      match b with
      | .fin q =>
        if q.isZero then .error "integer division or modulo by zero"
        else .ok (extMod a b).toVal
      | _ => .ok (extMod a b).toVal
    | .powO => applyPow a b
    | .fdivO => .error "Unsupported operator: FloorDiv"
  | _, _ =>
    match op, lv, rv with
    | .addO, .pstr s, .pstr t => .ok (.pstr (s ++ t))
    | .addO, .vlist xs, .vlist ys => .ok (.vlist (xs ++ ys))
    | _, _, _ => .error "TypeError: unsupported operand types"

def applyUnop (op : Uop) (v : Val) : Except String Val :=
  match op with
  | .notO => .ok (.pbool (!truthy v))
  | .usub =>
    match toExt v with
    | some e => .ok (extNeg e).toVal
    | none => .error "TypeError: bad operand type for unary minus"
  | .uadd =>
    match toExt v with
    | some e => .ok e.toVal
    | none => .error "TypeError: bad operand type for unary plus"

/-- The function-name whitelist `SAFE_FUNCTIONS`. -/
def isSafeFn (w : String) : Bool :=
  w == "abs" || w == "max" || w == "min" || w == "sum" || w == "len" || w == "COUNT"

/-- Fold for `max`/`min` over already-evaluated values; Python keeps the
earlier element on ties. -/
def pickFold (isMax : Bool) : Val → List Val → Except String Val
  | cur, [] => .ok cur
  | cur, x :: xs =>
    match ordCmp (if isMax then .gtO else .ltO) x cur with
    | .error e => .error e
    | .ok b => pickFold isMax (if b then x else cur) xs

def sumFold : ExtNum → List Val → Except String ExtNum
  | acc, [] => .ok acc
  | acc, x :: xs =>
    match toExt x with
    | some e => sumFold (extAdd acc e) xs
    | none => .error "TypeError: unsupported operand type in sum"

/-- Application of a whitelisted function to evaluated arguments. -/
def applyFn (_f : Nat) (w : String) (args : List Val) : Except String Val :=
  if w == "abs" then
    match args with
    | [v] =>
      match toExt v with
      | some (.fin q) => .ok (.num q.absQ)
      | some .pinf => .ok .inf
      | some .minf => .ok .inf
      | some .nan => .ok .nan
      | none => .error "TypeError: bad operand type for abs"
    | _ => .error "TypeError: abs takes exactly one argument"
  else if w == "max" || w == "min" then
    match args with
    | [] => .error "TypeError: expected at least 1 argument"
    | [.vlist []] => .error "ValueError: arg is an empty sequence"
    | [.vtup []] => .error "ValueError: arg is an empty sequence"
    | [.vlist (x :: xs)] => pickFold (w == "max") x xs
    | [.vtup (x :: xs)] => pickFold (w == "max") x xs
    | [_] => .error "TypeError: object is not iterable"
    | x :: xs => pickFold (w == "max") x xs
  else if w == "sum" then
    match args with
    | [.vlist xs] => (sumFold (.fin (.ofInt 0)) xs).map ExtNum.toVal
    | [.vtup xs] => (sumFold (.fin (.ofInt 0)) xs).map ExtNum.toVal
    | _ => .error "TypeError: sum argument is not iterable"
  else if w == "len" then
    match args with
    | [.vlist xs] => .ok (.num (.ofNat xs.length))
    | [.vtup xs] => .ok (.num (.ofNat xs.length))
    | [.pstr s] => .ok (.num (.ofNat s.length))
    | _ => .error "TypeError: object has no len"
  else if w == "COUNT" then
    match args with
    | [.vlist xs] => .ok (.num (.ofNat (xs.countP truthy)))
    | [.vtup xs] => .ok (.num (.ofNat (xs.countP truthy)))
    | [v] => .ok (.num (.ofNat (if truthy v then 1 else 0)))
    | _ => .error "TypeError: COUNT takes exactly one argument"
  else .error ("Unsupported function: " ++ w)

/-- The values Python would iterate over in `for item in iter_val`:
list and tuple elements, or one placeholder per character of a string
(the loop never uses the item itself). -/
def seqElems : Val → Option (List Val)
  | .vlist xs => some xs
  | .vtup xs => some xs
  | .pstr s => some (s.data.map (fun _ => Val.vnone))
  | _ => none

mutual

/-- The recursive walk of `_eval_node` over the parsed tree. -/
def evalNodeF : Nat → Ast → Except String Val
  | 0, _ => .error "maximum evaluation depth exceeded"
  | f + 1, ast =>
    match ast with
    | .const v => .ok v
    | .name id =>
      if id == "True" then .ok (.pbool true)
      else if id == "False" then .ok (.pbool false)
      else if id == "None" then .ok .vnone
      else .error ("Unknown name: " ++ id)
    | .listE es =>
      match evalManyF f es with
      | .ok vs => .ok (.vlist vs)
      | .error e => .error e
    | .tupE es =>
      match evalManyF f es with
      | .ok vs => .ok (.vtup vs)
      | .error e => .error e
    | .binop op l r =>
      match evalNodeF f l with
      | .error e => .error e
      | .ok lv =>
        match evalNodeF f r with
        | .error e => .error e
        | .ok rv =>
          match op with
          | .divO => if pyIsZero rv then .ok .inf else applyArith .divO lv rv
          | _ => applyArith op lv rv
    | .unop op e =>
      match evalNodeF f e with
      | .error e2 => .error e2
      | .ok v => applyUnop op v
    | .compare l chain =>
      match evalNodeF f l with
      | .error e => .error e
      | .ok lv => cmpChainF f lv chain
    | .boolop isAnd vs => if isAnd then allChainF f vs else anyChainF f vs
    | .call fn args =>
      match fn with
      | .name w =>
        if isSafeFn w then
          match evalManyF f args with
          | .error e => .error e
          | .ok vs => applyFn f w vs
        else .error ("Unsupported function: " ++ w)
      | _ => .error "Unsupported function: None"
    | .ifexp t b e =>
      match evalNodeF f t with
      | .error e2 => .error e2
      | .ok tv => if truthy tv then evalNodeF f b else evalNodeF f e
    | .genexp elt _ iter _ =>
      match evalNodeF f iter with
      | .error e => .error e
      | .ok itv =>
        match seqElems itv with
        | none => .error "TypeError: object is not iterable"
        | some xs =>
          match xs with
          | [] => .ok (.vlist [])
          | _ :: _ =>
            match evalNodeF f elt with
            | .error e => .error e
            | .ok v => .ok (.vlist (xs.map (fun _ => v)))
    | .listcomp _ _ _ _ => .error "Unsupported AST node: ListComp"

def evalManyF : Nat → List Ast → Except String (List Val)
  | 0, _ => .error "maximum evaluation depth exceeded"
  | _ + 1, [] => .ok []
  | f + 1, a :: as =>
    match evalNodeF f a with
    | .error e => .error e
    | .ok v =>
      match evalManyF f as with
      | .error e => .error e
      | .ok vs => .ok (v :: vs)

/-- The `zip(node.ops, node.comparators)` loop of the compare case:
short-circuit on the first failing comparison, thread the right operand
as the new left operand, return `True` when the chain is exhausted. -/
def cmpChainF : Nat → Val → List (CmpOp × Ast) → Except String Val
  | 0, _, _ => .error "maximum evaluation depth exceeded"
  | _ + 1, _, [] => .ok (.pbool true)
  | f + 1, lv, (op, cA) :: rest =>
    match evalNodeF f cA with
    | .error e => .error e
    | .ok rv =>
      match applyCmpF f op lv rv with
      | .error e => .error e
      | .ok b => if b then cmpChainF f rv rest else .ok (.pbool false)

/-- `all(self._eval_node(v) for v in node.values)`. -/
def allChainF : Nat → List Ast → Except String Val
  | 0, _ => .error "maximum evaluation depth exceeded"
  | _ + 1, [] => .ok (.pbool true)
  | f + 1, a :: as =>
    match evalNodeF f a with
    | .error e => .error e
    | .ok v => if truthy v then allChainF f as else .ok (.pbool false)

/-- `any(self._eval_node(v) for v in node.values)`. -/
def anyChainF : Nat → List Ast → Except String Val
  | 0, _ => .error "maximum evaluation depth exceeded"
  | _ + 1, [] => .ok (.pbool false)
  | f + 1, a :: as =>
    match evalNodeF f a with
    | .error e => .error e
    | .ok v => if truthy v then .ok (.pbool true) else anyChainF f as

end

/-! ### Schema preprocessing (`_preprocess_schema`)

Each regex rewrite of the Python method is implemented directly as the
corresponding text transformation, including its quirks (the first
conditional-COUNT match fixes the replacement text used for all
matches; the bare-COUNT rewrite branches on `==` occurring anywhere in
the whole processed string). -/

def spanPL (p : Char → Bool) : List Char → List Char × List Char
  | [] => ([], [])
  | c :: cs =>
    if p c then
      let (w, r) := spanPL p cs
      (c :: w, r)
    else ([], c :: cs)

/-- Does a word-boundary match of `word` start here, given whether the
previous character was a word character?  (`word` starts and ends with
word characters for every use below.) -/
def wordHit (word : List Char) (prevW : Bool) (s : List Char) : Bool :=
  !prevW && isPrefixOfL word s &&
    (match dropL word.length s with
     | [] => true
     | c :: _ => !isWordChar c)

/-- `re.sub(r'\b<word>\b', repl, s)`: replace each word-boundary
occurrence, scanning left to right and continuing after the matched
span of the original text. -/
def subWordGo (fuel : Nat) (word repl : List Char) (prevW : Bool) (s : List Char) : List Char :=
  match fuel, s with
  | 0, s => s
  | _ + 1, [] => []
  | f + 1, c :: cs =>
    if wordHit word prevW (c :: cs) then
      repl ++ subWordGo f word repl true (dropL word.length (c :: cs))
    else
      c :: subWordGo f word repl (isWordChar c) cs

def subWordAll (word repl s : List Char) : List Char :=
  subWordGo (s.length + 1) word repl false s

/-- Content up to the first `]`, which must exist and be nonempty
(`[^\]]+` followed by the literal bracket). -/
def readToRBracket : List Char → Option (List Char × List Char)
  | [] => none
  | c :: cs =>
    if c == ']' then some ([], cs)
    else (readToRBracket cs).map (fun p => (c :: p.1, p.2))

/-- Content up to the first `)`. -/
def readToRParen : List Char → Option (List Char × List Char)
  | [] => none
  | c :: cs =>
    if c == ')' then some ([], cs)
    else (readToRParen cs).map (fun p => (c :: p.1, p.2))

/-- Maximal word-character run that stops before an ideographic
`包含`, the group-1 text of the contains rewrite. -/
def readRunNotContains : List Char → List Char × List Char
  | [] => ([], [])
  | c :: cs =>
    if isWordChar c && !(c == '包' && (match cs with | d :: _ => d == '含' | [] => false)) then
      let (w, r) := readRunNotContains cs
      (c :: w, r)
    else ([], c :: cs)

/-- Try the match `(\w+)\s*包含\s*\[([^\]]+)\]` at this position,
returning the replacement `any(item in \1 for item in [\2])` and the
text after the matched span. -/
def tryContainsAt (s : List Char) : Option (List Char × List Char) :=
  let (g1, r1) := readRunNotContains s
  if g1.isEmpty then none
  else
    match lstripL r1 with
    | '包' :: '含' :: r3 =>
      match lstripL r3 with
      | '[' :: r5 =>
        match readToRBracket r5 with
        | some (content, r6) =>
          if content.isEmpty then none
          else
            some ("any(item in ".data ++ g1 ++ " for item in [".data ++ content ++ "])".data, r6)
        | none => none
      | _ => none
    | _ => none

def subContains (fuel : Nat) (s : List Char) : List Char :=
  match fuel, s with
  | 0, s => s
  | _ + 1, [] => []
  | f + 1, c :: cs =>
    match tryContainsAt (c :: cs) with
    | some (repl, rest) => repl ++ subContains f rest
    | none => c :: subContains f cs

/-- Try the match `(\w+)\s+in\s+\[([^\]]+)\]` at this position,
returning the whitespace-normalised replacement `\1 in [\2]`. -/
def tryInListAt (s : List Char) : Option (List Char × List Char) :=
  let (g1, r1) := readIdentRun s
  if g1.isEmpty then none
  else
    let (sp1, r2) := spanPL isSpaceCh r1
    if sp1.isEmpty then none
    else
      match r2 with
      | 'i' :: 'n' :: r3 =>
        let (sp2, r4) := spanPL isSpaceCh r3
        if sp2.isEmpty then none
        else
          match r4 with
          | '[' :: r5 =>
            match readToRBracket r5 with
            | some (content, r6) =>
              if content.isEmpty then none
              else some (g1 ++ " in [".data ++ content ++ [']'], r6)
            | none => none
          | _ => none
      | _ => none

def subInList (fuel : Nat) (s : List Char) : List Char :=
  match fuel, s with
  | 0, s => s
  | _ + 1, [] => []
  | f + 1, c :: cs =>
    match tryInListAt (c :: cs) with
    | some (repl, rest) => repl ++ subInList f rest
    | none => c :: subInList f cs

/-- Find the rightmost comparison-operator start inside the text between
`COUNT(` and the first `)`, with the alternation preference of
`(<|>|<=|>=|==)` (so `<` and `>` win over `<=` and `>=`), requiring a
nonempty group before and after. -/
def countOpSearch : List Char → Nat → Option (Nat × List Char)
  | [], _ => none
  | c :: rest, i =>
    let later := countOpSearch rest (i + 1)
    match later with
    | some x => some x
    | none =>
      if (c == '<' || c == '>') && i ≥ 1 && !(lstripL rest).isEmpty then
        some (i, [c])
      else if c == '=' && (match rest with | d :: _ => d == '=' | [] => false)
              && i ≥ 1 && !(lstripL (dropL 1 rest)).isEmpty then
        some (i, "==".data)
      else none

/-- The replacement text the first conditional-COUNT match produces:
`sum(1 for x in {g1} if x {op} {g3})` with both groups stripped. -/
def mkCondRepl (inner : List Char) : Option (List Char) :=
  (countOpSearch inner 0).map (fun p =>
    "sum(1 for x in ".data ++ stripL (inner.take p.1) ++ " if x ".data ++ p.2 ++
      ' ' :: stripL (dropL (p.1 + p.2.length) inner) ++ [')'])

/-- Find the first conditional-COUNT match and compute its replacement
(the `re.search` step). -/
def countCondFind (fuel : Nat) (s : List Char) : Option (List Char) :=
  match fuel, s with
  | 0, _ => none
  | _ + 1, [] => none
  | f + 1, c :: cs =>
    if isPrefixOfL "COUNT(".data (c :: cs) then
      match readToRParen (dropL 6 (c :: cs)) with
      | some (inner, _) =>
        match mkCondRepl inner with
        | some repl => some repl
        | none => countCondFind f cs
      | none => countCondFind f cs
    else countCondFind f cs

/-- Replace every conditional-COUNT match by the one fixed replacement
text (the `re.sub` step reuses the text built from the first match). -/
def countCondReplace (fuel : Nat) (repl : List Char) (s : List Char) : List Char :=
  match fuel, s with
  | 0, s => s
  | _ + 1, [] => []
  | f + 1, c :: cs =>
    if isPrefixOfL "COUNT(".data (c :: cs) then
      match readToRParen (dropL 6 (c :: cs)) with
      | some (inner, rest) =>
        if (mkCondRepl inner).isSome then repl ++ countCondReplace f repl rest
        else c :: countCondReplace f repl cs
      | none => c :: countCondReplace f repl cs
    else c :: countCondReplace f repl cs

def countCondSub (s : List Char) : List Char :=
  match countCondFind (s.length + 1) s with
  | some repl => countCondReplace (s.length + 1) repl s
  | none => s

/-- The bare `COUNT(\1)` rewrite; the template is chosen once by whether
`==` occurs anywhere in the current processed string. -/
def countBareSub (fuel : Nat) (hasEq : Bool) (s : List Char) : List Char :=
  match fuel, s with
  | 0, s => s
  | _ + 1, [] => []
  | f + 1, c :: cs =>
    if isPrefixOfL "COUNT(".data (c :: cs) then
      match readToRParen (dropL 6 (c :: cs)) with
      | some (inner, rest) =>
        if inner.isEmpty then c :: countBareSub f hasEq cs
        else
          (if hasEq then "len([x for x in ".data ++ inner ++ " if x])".data
           else "len(".data ++ inner ++ [')']) ++ countBareSub f hasEq rest
      | none => c :: countBareSub f hasEq cs
    else c :: countBareSub f hasEq cs

/-- `LogicEvaluator._preprocess_schema`, stage by stage in source
order. -/
def preprocessL (s : List Char) : List Char :=
  let p1 := subWordAll "AND".data " and ".data s
  let p2 := subWordAll "OR".data " or ".data p1
  let p3 := subWordAll "NOT".data " not ".data p2
  let p4 := subContains (p3.length + 1) p3
  let p5 := subInList (p4.length + 1) p4
  let p6 := replaceAllL (p5.length + 1) "== NULL".data "is None".data p5
  let p7 := replaceAllL (p6.length + 1) "== None".data "is None".data p6
  let p8 := countCondSub p7
  countBareSub (p8.length + 1) (containsSub "==".data p8) p8

/-! ### Value substitution (`_substitute_values`) -/

/-- Stable insertion for the descending-length key sort
(`sorted(keys, key=len, reverse=True)`). -/
def insDescKey (x : String) : List String → List String
  | [] => [x]
  | y :: ys => if x.length ≤ y.length then y :: insDescKey x ys else x :: y :: ys

def sortedKeys (d : Record) : List String :=
  (d.map (fun p => p.1)).foldl (fun acc k => insDescKey k acc) []

/-- `self._evidence[key] = value` on the insertion-ordered dict. -/
def insertAssoc (ev : List (String × Val)) (k : String) (v : Val) : List (String × Val) :=
  if ev.any (fun p => p.1 == k) then
    ev.map (fun p => if p.1 == k then (k, v) else p)
  else ev ++ [(k, v)]

/-- One key step of the substitution loop over `(schema text, evidence)`. -/
def substStep (d : Record) (acc : List Char × List (String × Val)) (k : String) :
    List Char × List (String × Val) :=
  match assocFind k d with
  | some v =>
    if v.isNoneV then acc
    else (subWordAll k.data (printVal 64 v) acc.1, insertAssoc acc.2 k v)
  | none => acc

/-- `_substitute_values`: fold the keys in descending length order,
recording evidence and textually replacing word-boundary occurrences. -/
def substituteValues (schema : List Char) (d : Record) : List Char × List (String × Val) :=
  (sortedKeys d).foldl (substStep d) (schema, [])

/-! ### Missing-data detection -/

/-- `_has_missing_data`: CJK characters remain in the substituted text,
and the total count of quote characters is even (the in-string parity
loop leaves `in_string` false). -/
def hasMissingDataB (s : List Char) : Bool :=
  (s.any isCJK) && (s.countP (fun c => c == '"' || c == squote)) % 2 == 0

def fieldTokenCh (c : Char) : Bool := isCJK c || c == '_'

/-- Maximal runs of `[一-鿿_]+` in the schema text. -/
def fieldRuns (fuel : Nat) (s : List Char) : List (List Char) :=
  match fuel, s with
  | 0, _ => []
  | _ + 1, [] => []
  | f + 1, c :: cs =>
    if fieldTokenCh c then
      let (w, r) := spanPL fieldTokenCh cs
      (c :: w) :: fieldRuns f r
    else fieldRuns f cs

def dedupFirst (seen : List String) : List String → List String
  | [] => []
  | x :: xs =>
    if seen.contains x then dedupFirst seen xs
    else x :: dedupFirst (x :: seen) xs

/-- `_get_missing_fields` on the preprocessed (pre-substitution) schema:
the CJK/underscore tokens that are absent from the record or bound to
null, deduplicated.  (Python returns `list(set(...))`, whose order is
unspecified; the model keeps first-occurrence order.) -/
def getMissingFields (schema : List Char) (d : Record) : List String :=
  dedupFirst []
    (((fieldRuns (schema.length + 1) schema).map String.mk).filter
      (fun t =>
        match assocFind t d with
        | none => true
        | some v => v.isNoneV))

/-! ### Fallback and extraction helpers -/

/-- Python `float(text)` on the strings this code can produce: optional
sign, digits, optional fractional part. -/
def parseFloatCore (r : List Char) : Option PyNum :=
  let (ip, r1) := readDigits r
  match r1 with
  | [] => if ip.isEmpty then none else some ⟨Int.ofNat (digitsVal ip 0), 1⟩
  | '.' :: r2 =>
    let (fr, r3) := readDigits r2
    if r3.isEmpty && !(ip.isEmpty && fr.isEmpty) then some (mkFrac ip fr) else none
  | _ => none

def parseFloatL (s : List Char) : Option PyNum :=
  match s with
  | '+' :: r => parseFloatCore r
  | '-' :: r => (parseFloatCore r).map PyNum.neg
  | r => parseFloatCore r

/-- Fuel for the interpreter, comfortably above any recursion the parsed
tree of `s` can require. -/
def evalFuelFor (s : List Char) : Nat := 8 * s.length + 64

def simpleOps : List (List Char) :=
  [" >= ".data, " <= ".data, " > ".data, " < ".data, " == ".data, " != ".data]

def cmpSimple (op : List Char) (a b : PyNum) : Bool :=
  if op == " >= ".data then b.leQ a
  else if op == " <= ".data then a.leQ b
  else if op == " > ".data then b.ltQ a
  else if op == " < ".data then a.ltQ b
  else if op == " == ".data then a.eqQ b
  else if op == " != ".data then !a.eqQ b
  else false

/-- The loop body of `_simple_eval`: first operator contained in the
normalised text wins; a float conversion failure aborts the whole
attempt (the surrounding `try` returns `False`). -/
def simpleEvalOps (expr : List Char) : List (List Char) → Bool
  | [] => false
  | op :: rest =>
    if containsSub op expr then
      match splitOnL (expr.length + 1) op expr with
      | [l, r] =>
        match parseFloatL (stripL l), parseFloatL (stripL r) with
        | some a, some b => cmpSimple op a b
        | _, _ => false
      | _ => simpleEvalOps expr rest
    else simpleEvalOps expr rest

/-- `_simple_eval`: whitespace-normalise, then try the six spaced
comparison operators on two bare numbers; default `False`. -/
def simpleEvalB (s : List Char) : Bool :=
  simpleEvalOps (joinL [' '] (splitWsL (s.length + 1) s)) simpleOps

/-- Characters before the first occurrence of `op`. -/
def beforeFirst (op : List Char) : List Char → List Char
  | [] => []
  | c :: cs => if isPrefixOfL op (c :: cs) then [] else c :: beforeFirst op cs

/-- `float(eval(left_side))` in `_extract_calculated_value`: evaluate
the text with the safe interpreter model and coerce to a float. -/
def tryEvalFloat (left : List Char) : Option Val :=
  match parseExpression left with
  | some a =>
    match evalNodeF (evalFuelFor left) a with
    | .ok (.num q) => some (.num q)
    | .ok (.pbool b) => some (.num (.ofInt (if b then 1 else 0)))
    | .ok .inf => some .inf
    | .ok .ninf => some .ninf
    | .ok .nan => some .nan
    | .ok (.pstr t) => (parseFloatL (stripL t.data)).map Val.num
    | .ok _ => none
    | .error _ => none
  | none => none

def calcOps : List (List Char) :=
  [" > ".data, " < ".data, " >= ".data, " <= ".data, " == ".data]

def extractCalcOps (sub : List Char) : List (List Char) → Option Val
  | [] => none
  | op :: rest =>
    if containsSub op sub then
      match tryEvalFloat (stripL (beforeFirst op sub)) with
      | some v => some v
      | none => extractCalcOps sub rest
    else extractCalcOps sub rest

/-- `_extract_calculated_value` over the substituted text. -/
def extractCalculated (sub : List Char) : Option Val :=
  extractCalcOps sub calcOps

def isThreshSym (c : Char) : Bool := c == '>' || c == '<' || c == '=' || c == '!'

/-- `_extract_threshold_value`: first position where `[><=!]+\s*[0-9.]+`
matches in the original schema; a float conversion failure of that first
match returns nothing. -/
def threshScan (fuel : Nat) (s : List Char) : Option PyNum :=
  match fuel, s with
  | 0, _ => none
  | _ + 1, [] => none
  | f + 1, c :: cs =>
    if isThreshSym c then
      let (_, r1) := spanPL isThreshSym (c :: cs)
      let (numrun, _) := spanPL (fun ch => isDigitCh ch || ch == '.') (lstripL r1)
      if numrun.isEmpty then threshScan f cs else parseFloatL numrun
    else threshScan f cs

def extractThreshold (orig : List Char) : Option PyNum :=
  threshScan (orig.length + 1) orig

/-! ### The evaluator entry point -/

/-- `LogicEvaluator.evaluate` result dict. -/
structure EvaluationOutcome where
  violation : Bool
  evidence : List (String × Val)
  calculated : Option Val
  threshold : Option PyNum
  error : Option String
  missingFields : Option (List String)

/-- `_safe_eval`: structured parse and interpretation, falling back to
`_simple_eval` when the parse raises `SyntaxError`. -/
def safeEval (sub : List Char) : Except String Val :=
  match parseExpression sub with
  | some a => evalNodeF (evalFuelFor sub) a
  | none => .ok (.pbool (simpleEvalB sub))

/-- `LogicEvaluator.evaluate`: the full pipeline.  The `try`/`except`
of the Python method is the `Except` case split: any error raised by
interpretation surfaces as the `error` field with `violation` false. -/
def evaluate (schema : String) (d : Record) : EvaluationOutcome :=
  let pre := preprocessL schema.data
  let se := substituteValues pre d
  if hasMissingDataB se.1 then
    { violation := false, evidence := se.2, calculated := none, threshold := none,
      error := some "Insufficient data for evaluation",
      missingFields := some (getMissingFields pre d) }
  else
    match safeEval se.1 with
    | .ok v =>
      { violation := truthy v, evidence := se.2, calculated := extractCalculated se.1,
        threshold := extractThreshold schema.data, error := none, missingFields := none }
    | .error e =>
      { violation := false, evidence := se.2, calculated := none, threshold := none,
        error := some e, missingFields := none }

/-! ### A typing judgment for the supported grammar

`inferTyF` delimits a well-typed fragment of the interpreter grammar on
which evaluation provably cannot raise: numeric arithmetic (with the
divide-by-zero guard), comparisons between matching operand kinds,
boolean connectives, the conditional, `abs`/`sum`/`len`/`COUNT`, and
the generator form produced by the COUNT rewrite.  Modulo demands a
divisor that evaluates to nonzero — the operation the interpreter does
not guard. -/

inductive Ty where
  | numT | strT | boolT | noneT
  | listT (t : Ty)
  | tupT (t : Ty)
deriving DecidableEq, Repr

def Val.isNumFam : Val → Bool
  | .num _ => true
  | .inf => true
  | .ninf => true
  | .nan => true
  | _ => false

/-- Does a value inhabit a type?  Recursion is on the type. -/
def valHasTy (v : Val) : Ty → Bool
  | .numT => v.isNumFam
  | .strT => match v with | .pstr _ => true | _ => false
  | .boolT => match v with | .pbool _ => true | _ => false
  | .noneT => match v with | .vnone => true | _ => false
  | .listT t => match v with | .vlist vs => vs.all (fun w => valHasTy w t) | _ => false
  | .tupT t => match v with | .vtup vs => vs.all (fun w => valHasTy w t) | _ => false

/-- Type of a literal value (homogeneous sequences only). -/
def tyOfValF : Nat → Val → Option Ty
  | 0, _ => none
  | _ + 1, .num _ => some .numT
  | _ + 1, .inf => some .numT
  | _ + 1, .ninf => some .numT
  | _ + 1, .nan => some .numT
  | _ + 1, .pbool _ => some .boolT
  | _ + 1, .pstr _ => some .strT
  | _ + 1, .vnone => some .noneT
  | _ + 1, .vlist [] => some (.listT .numT)
  | f + 1, .vlist (v :: vs) =>
    match tyOfValF f v with
    | some t => if vs.all (fun w => valHasTy w t) then some (.listT t) else none
    | none => none
  | _ + 1, .vtup [] => some (.tupT .numT)
  | f + 1, .vtup (v :: vs) =>
    match tyOfValF f v with
    | some t => if vs.all (fun w => valHasTy w t) then some (.tupT t) else none
    | none => none

/-- May this comparison operator step from a left operand of type `tl`
to a right operand of type `ta` without a `TypeError`? -/
def cmpOpOk (op : CmpOp) (tl ta : Ty) : Bool :=
  match op with
  | .ltO | .leO | .gtO | .geO =>
    (tl == .numT && ta == .numT) || (tl == .strT && ta == .strT)
  | .eqO | .neO => true
  | .inO | .notInO =>
    (match ta with
     | .listT _ => true
     | .tupT _ => true
     | .strT => tl == .strT
     | _ => false)
  | .isO | .isNotO => ta == .noneT

mutual

def inferTyF : Nat → Ast → Option Ty
  | 0, _ => none
  | f + 1, ast =>
    match ast with
    | .const v => tyOfValF f v
    | .name id =>
      if id == "True" || id == "False" then some .boolT
      else if id == "None" then some .noneT
      else none
    | .listE es =>
      match inferManyF f es with
      | some [] => some (.listT .numT)
      | some (t :: ts) => if ts.all (fun u => u == t) then some (.listT t) else none
      | none => none
    | .tupE es =>
      match inferManyF f es with
      | some [] => some (.tupT .numT)
      | some (t :: ts) => if ts.all (fun u => u == t) then some (.tupT t) else none
      | none => none
    | .binop op l r =>
      match inferTyF f l, inferTyF f r with
      | some tl, some tr =>
        if tl == .numT && tr == .numT then
          match op with
          | .addO | .subO | .mulO | .divO => some .numT
          | .modO =>
            match evalNodeF f r with
            | .ok rv => if pyIsZero rv then none else some .numT
            | .error _ => none
          | _ => none
        else none
      | _, _ => none
    | .unop op e =>
      match inferTyF f e with
      | some te =>
        match op with
        | .notO => some .boolT
        | .usub => if te == .numT then some .numT else none
        | .uadd => if te == .numT then some .numT else none
      | none => none
    | .compare l chain =>
      match inferTyF f l with
      | some tl => inferChainF f tl chain
      | none => none
    | .boolop _ vs =>
      match inferManyF f vs with
      | some _ => some .boolT
      | none => none
    | .call fn args =>
      match fn, args with
      | .name w, [a] =>
        match inferManyF f [a] with
        | some [ta] =>
          if w == "abs" then if ta == .numT then some .numT else none
          else if w == "sum" then if ta == .listT .numT then some .numT else none
          else if w == "len" then
            match ta with
            | .listT _ => some .numT
            | .tupT _ => some .numT
            | .strT => some .numT
            | _ => none
          else if w == "COUNT" then some .numT
          else none
        | _ => none
      | _, _ => none
    | .ifexp t b e =>
      match inferTyF f t, inferTyF f b, inferTyF f e with
      | some _, some tb, some te => if tb == te then some tb else none
      | _, _, _ => none
    | .genexp elt _ iter _ =>
      match inferTyF f elt, inferTyF f iter with
      | some te, some ti =>
        match ti with
        | .listT _ => some (.listT te)
        | .tupT _ => some (.listT te)
        | .strT => some (.listT te)
        | _ => none
      | _, _ => none
    | .listcomp _ _ _ _ => none

def inferManyF : Nat → List Ast → Option (List Ty)
  | 0, _ => none
  | _ + 1, [] => some []
  | f + 1, a :: as =>
    match inferTyF f a, inferManyF f as with
    | some t, some ts => some (t :: ts)
    | _, _ => none

/-- Typing of a comparison chain, threading the right operand type as
the next left operand type, as the interpreter threads values. -/
def inferChainF : Nat → Ty → List (CmpOp × Ast) → Option Ty
  | 0, _, _ => none
  | _ + 1, _, [] => some .boolT
  | f + 1, tl, (op, a) :: rest =>
    match inferTyF f a with
    | some ta => if cmpOpOk op tl ta then inferChainF f ta rest else none
    | none => none

end

/-- Pointwise typing of an evaluated argument list. -/
def valsHaveTys : List Val → List Ty → Bool
  | [], [] => true
  | v :: vs, t :: ts => valHasTy v t && valsHaveTys vs ts
  | _, _ => false

/-! ### Findings and the report accumulator (`models/finding.py`) -/

inductive ViolationSeverity where
  | critical | high | medium | low
deriving DecidableEq, Repr

structure Finding where
  ruleId : String
  ruleSubject : String
  category : String
  severity : ViolationSeverity
  logicSchema : String
  evaluationResult : Bool
  evidence : List (String × Val)
  calculatedValue : Option Val
  thresholdValue : Option PyNum
  description : String
  recommendation : String
  auditProcedures : List String

structure AuditReport where
  documentName : String
  documentPath : String
  totalRulesChecked : Nat
  totalViolations : Nat
  findings : List Finding
  criticalCount : Nat
  highCount : Nat
  mediumCount : Nat
  lowCount : Nat
  categorySummary : List (String × Nat)

/-- A fresh report as `AuditReport(document_name=..., document_path=...,
total_rules_checked=...)` constructs it, all counters at their
defaults. -/
def mkReport (name path : String) (checked : Nat) : AuditReport :=
  { documentName := name
    documentPath := path
    totalRulesChecked := checked
    totalViolations := 0
    findings := []
    criticalCount := 0
    highCount := 0
    mediumCount := 0
    lowCount := 0
    categorySummary := [] }

/-- `self.category_summary[cat] = self.category_summary.get(cat, 0) + 1`
on the insertion-ordered dict. -/
def bumpCategory (cs : List (String × Nat)) (cat : String) : List (String × Nat) :=
  if cs.any (fun p => p.1 == cat) then
    cs.map (fun p => if p.1 == cat then (p.1, p.2 + 1) else p)
  else cs ++ [(cat, 1)]

/-- `AuditReport.add_finding`: append the finding and update all counts
in the same step; the `if`/`elif` chain sends every severity that is not
Critical, High or Medium to the Low counter. -/
def AuditReport.addFinding (r : AuditReport) (f : Finding) : AuditReport :=
  { r with
    findings := r.findings ++ [f]
    totalViolations := r.totalViolations + 1
    criticalCount := if f.severity = .critical then r.criticalCount + 1 else r.criticalCount
    highCount := if f.severity = .high then r.highCount + 1 else r.highCount
    mediumCount := if f.severity = .medium then r.mediumCount + 1 else r.mediumCount
    lowCount :=
      if f.severity ≠ .critical ∧ f.severity ≠ .high ∧ f.severity ≠ .medium then
        r.lowCount + 1
      else r.lowCount
    categorySummary := bumpCategory r.categorySummary f.category }

/-- `AuditReporter.create_report`: a fresh report with each finding
added in order. -/
def createReport (name path : String) (fs : List Finding) (checked : Nat) : AuditReport :=
  fs.foldl AuditReport.addFinding (mkReport name path checked)

/-! ### Rules and JSONL loading (`models/rule.py`, `rag/indexer.py`) -/

structure Rule where
  ruleId : String
  category : String
  subject : String
  triggerKeywords : List String
  logicSchema : String
  priority : String
  description : String
  source : String
  linkedModels : List String
  auditProcedures : List String

/-- Python `line.strip()`. -/
def trimS (s : String) : String := String.mk (stripL s.data)

/-! #### JSON values and `json.loads`

`Rule.from_jsonl_line` catches only `json.JSONDecodeError` and
`ValueError`.  `json.loads` on a line of valid JSON whose top-level
value is not an object hands a non-dict to `cls(**data)`, which raises
`TypeError` — an exception the `except` clause does not cover, so it
propagates out of `load_rules_from_jsonl` (whose loop has no `try`).
To state this the deserializer is modelled faithfully as a fallible
function: a JSON value type and a scanner for the `json.loads`
language (RFC 8259 plus the module's `NaN`/`Infinity`/`-Infinity`
constants, strict control-character rejection in strings, `\uXXXX`
escapes with surrogate-pair combination, and a trailing-data check).
Numeric values are kept as lexemes — no rule field is numeric.  Two
documented idealizations, neither affecting whether a line raises:
`int(esc, 16)` eccentricities inside `\uXXXX` (embedded sign,
whitespace, underscores) are not accepted, and a lone surrogate
decodes to NUL because Lean characters are scalar values. -/

inductive Json where
  | jnull
  | jbool (b : Bool)
  | jnum (lex : List Char)
  | jstr (s : String)
  | jarr (xs : List Json)
  | jobj (fields : List (String × Json))
deriving Repr

/-- The whitespace `json.loads` skips between tokens. -/
def isJsonWs (c : Char) : Bool :=
  c == ' ' || c == '\t' || c == '\n' || c == '\r'

def skipWs : List Char → List Char
  | c :: cs => if isJsonWs c then skipWs cs else c :: cs
  | [] => []

def lbraceC : Char := Char.ofNat 123

def rbraceC : Char := Char.ofNat 125

def hexVal (c : Char) : Option Nat :=
  if 48 ≤ c.toNat && c.toNat ≤ 57 then some (c.toNat - 48)
  else if 97 ≤ c.toNat && c.toNat ≤ 102 then some (c.toNat - 87)
  else if 65 ≤ c.toNat && c.toNat ≤ 70 then some (c.toNat - 55)
  else none

/-- Scan a JSON string body after the opening quote: `py_scanstring` in
strict mode.  Unescaped control characters are rejected; `\uXXXX`
needs four hex digits; a high surrogate followed by an escaped low
surrogate combines into one character. -/
def jstrGo : Nat → List Char → List Char → Option (String × List Char)
  | 0, _, _ => none
  | _, acc, '"' :: cs => some (String.mk acc.reverse, cs)
  | f + 1, acc, '\\' :: 'u' :: h1 :: h2 :: h3 :: h4 :: cs =>
    match hexVal h1, hexVal h2, hexVal h3, hexVal h4 with
    | some a, some b, some c, some d =>
      let n := ((a * 16 + b) * 16 + c) * 16 + d
      if 55296 ≤ n && n ≤ 56319 then
        match cs with
        | '\\' :: 'u' :: k1 :: k2 :: k3 :: k4 :: cs2 =>
          match hexVal k1, hexVal k2, hexVal k3, hexVal k4 with
          | some a2, some b2, some c2, some d2 =>
            let m := ((a2 * 16 + b2) * 16 + c2) * 16 + d2
            if 56320 ≤ m && m ≤ 57343 then
              jstrGo f (Char.ofNat (65536 + (n - 55296) * 1024 + (m - 56320)) :: acc) cs2
            else jstrGo f (Char.ofNat n :: acc) cs
          | _, _, _, _ => none
        | _ => jstrGo f (Char.ofNat n :: acc) cs
      else jstrGo f (Char.ofNat n :: acc) cs
    | _, _, _, _ => none
  | f + 1, acc, '\\' :: e :: cs =>
    match
      (if e == '"' then some '"'
       else if e == '\\' then some '\\'
       else if e == '/' then some '/'
       else if e == 'b' then some (Char.ofNat 8)
       else if e == 'f' then some (Char.ofNat 12)
       else if e == 'n' then some '\n'
       else if e == 'r' then some '\r'
       else if e == 't' then some '\t'
       else none) with
    | some ch => jstrGo f (ch :: acc) cs
    | none => none
  | f + 1, acc, c :: cs => if c.toNat < 32 then none else jstrGo f (c :: acc) cs
  | _, _, [] => none

/-- A maximal run of ASCII digits. -/
def jdigits : List Char → List Char × List Char
  | c :: cs =>
    if c.isDigit then
      let p := jdigits cs
      (c :: p.1, p.2)
    else ([], c :: cs)
  | [] => ([], [])

/-- Optional fraction part: `.` demands at least one digit. -/
def jfrac : List Char → Option (List Char × List Char)
  | '.' :: cs =>
    match jdigits cs with
    | ([], _) => none
    | (ds, r) => some ('.' :: ds, r)
  | s => some ([], s)

/-- Optional exponent part: `e`/`E`, optional sign, at least one digit. -/
def jexp : List Char → Option (List Char × List Char)
  | c :: cs =>
    if c == 'e' || c == 'E' then
      match cs with
      | d :: ds =>
        if d == '+' || d == '-' then
          match jdigits ds with
          | ([], _) => none
          | (es, r) => some (c :: d :: es, r)
        else
          match jdigits (d :: ds) with
          | ([], _) => none
          | (es, r) => some (c :: es, r)
      | [] => none
    else some ([], c :: cs)
  | [] => some ([], [])

/-- Unsigned number: `0` or a nonzero-led digit run, then fraction and
exponent. -/
def jnumCore : List Char → Option (List Char × List Char)
  | c :: cs =>
    if c == '0' then
      match jfrac cs with
      | some (fp, r1) =>
        match jexp r1 with
        | some (ep, r2) => some ('0' :: (fp ++ ep), r2)
        | none => none
      | none => none
    else if c.isDigit then
      let p := jdigits cs
      match jfrac p.2 with
      | some (fp, r1) =>
        match jexp r1 with
        | some (ep, r2) => some ((c :: p.1) ++ fp ++ ep, r2)
        | none => none
      | none => none
    else none
  | [] => none

def jnumLex : List Char → Option (List Char × List Char)
  | '-' :: s1 =>
    match jnumCore s1 with
    | some (lex, r) => some ('-' :: lex, r)
    | none => none
  | s => jnumCore s

mutual

/-- One JSON value, leading whitespace skipped. -/
def pJson : Nat → List Char → Option (Json × List Char)
  | 0, _ => none
  | f + 1, s =>
    match skipWs s with
    | [] => none
    | c :: cs =>
      if c == '"' then
        match jstrGo (cs.length + 1) [] cs with
        | some (str, r) => some (.jstr str, r)
        | none => none
      else if c == lbraceC then
        match skipWs cs with
        | d :: ds =>
          if d == rbraceC then some (.jobj [], ds)
          else
            match pMembers f (d :: ds) with
            | some (fs, r) => some (.jobj fs, r)
            | none => none
        | [] => none
      else if c == '[' then
        match skipWs cs with
        | ']' :: ds => some (.jarr [], ds)
        | ds =>
          match pItems f ds with
          | some (vs, r) => some (.jarr vs, r)
          | none => none
      else
        match c :: cs with
        | 't' :: 'r' :: 'u' :: 'e' :: r => some (.jbool true, r)
        | 'f' :: 'a' :: 'l' :: 's' :: 'e' :: r => some (.jbool false, r)
        | 'n' :: 'u' :: 'l' :: 'l' :: r => some (.jnull, r)
        | 'N' :: 'a' :: 'N' :: r => some (.jnum ['N', 'a', 'N'], r)
        | 'I' :: 'n' :: 'f' :: 'i' :: 'n' :: 'i' :: 't' :: 'y' :: r =>
          some (.jnum ['I', 'n', 'f'], r)
        | '-' :: 'I' :: 'n' :: 'f' :: 'i' :: 'n' :: 'i' :: 't' :: 'y' :: r =>
          some (.jnum ['-', 'I', 'n', 'f'], r)
        | rest =>
          match jnumLex rest with
          | some (lex, r) => some (.jnum lex, r)
          | none => none

/-- The elements of a non-empty array, commas between values, closed by
`]`. -/
def pItems : Nat → List Char → Option (List Json × List Char)
  | 0, _ => none
  | f + 1, s =>
    match pJson f s with
    | some (v, r) =>
      match skipWs r with
      | ',' :: r2 =>
        match pItems f r2 with
        | some (vs, r3) => some (v :: vs, r3)
        | none => none
      | c :: r2 => if c == ']' then some ([v], r2) else none
      | [] => none
    | none => none

/-- The members of a non-empty object: string key, colon, value, comma
or closing brace. -/
def pMembers : Nat → List Char → Option (List (String × Json) × List Char)
  | 0, _ => none
  | f + 1, s =>
    match skipWs s with
    | '"' :: cs =>
      match jstrGo (cs.length + 1) [] cs with
      | some (k, r) =>
        match skipWs r with
        | ':' :: r2 =>
          match pJson f r2 with
          | some (v, r3) =>
            match skipWs r3 with
            | ',' :: r5 =>
              match pMembers f r5 with
              | some (fs, r6) => some ((k, v) :: fs, r6)
              | none => none
            | c :: r5 => if c == rbraceC then some ([(k, v)], r5) else none
            | [] => none
          | none => none
        | _ => none
      | none => none
    | _ => none

end

/-- `json.loads`: one value, and nothing but whitespace may follow it
(the decoder's "Extra data" check).  At most two fuel units per input
character are spent along any call chain. -/
def parseJson (s : List Char) : Option Json :=
  match pJson (2 * s.length + 8) s with
  | some (v, r) =>
    match skipWs r with
    | [] => some v
    | _ => none
  | none => none

/-- Field lookup in an object: `dict` construction keeps the last
occurrence of a duplicated key. -/
def jLookup (fields : List (String × Json)) (k : String) : Option Json :=
  fields.foldl (fun acc p => if p.1 == k then some p.2 else acc) none

/-- A JSON array each of whose elements is a string. -/
def strItems : List Json → Option (List String)
  | [] => some []
  | .jstr s :: rest =>
    match strItems rest with
    | some l => some (s :: l)
    | none => none
  | _ => none

def reqStrField (fields : List (String × Json)) (k : String) : Option String :=
  match jLookup fields k with
  | some (.jstr s) => some s
  | _ => none

def optStrField (fields : List (String × Json)) (k : String) (dflt : String) :
    Option String :=
  match jLookup fields k with
  | none => some dflt
  | some (.jstr s) => some s
  | some _ => none

def optStrListField (fields : List (String × Json)) (k : String) :
    Option (List String) :=
  match jLookup fields k with
  | none => some []
  | some (.jarr xs) => strItems xs
  | some _ => none

/-- Pydantic validation of the `Rule` model against a JSON object: the
six declared `str` fields are required and must be strings, the list
fields must be arrays of strings when present, `source` defaults to
the empty string, extra keys are ignored.  Any validation failure is a
`ValidationError` — a `ValueError` the `except` clause catches — so
this function is total: `none` is the caught path. -/
def validateRule (fields : List (String × Json)) : Option Rule :=
  match reqStrField fields "rule_id", reqStrField fields "category",
      reqStrField fields "subject", reqStrField fields "logic_schema",
      reqStrField fields "priority", reqStrField fields "description" with
  | some rid, some cat, some subj, some ls, some pri, some desc =>
    match optStrListField fields "trigger_keywords", optStrField fields "source" "",
        optStrListField fields "linked_models",
        optStrListField fields "audit_procedures" with
    | some tk, some src, some lm, some ap =>
      some ⟨rid, cat, subj, tk, ls, pri, desc, src, lm, ap⟩
    | _, _, _, _ => none
  | _, _, _, _, _, _ => none

/-- `Rule.from_jsonl_line`: `json.loads(line.strip())` inside
`try`/`except (json.JSONDecodeError, ValueError)`.  A decode failure
is caught (`.ok none`); a valid JSON object goes to `cls(**data)`
whose `ValidationError` is a `ValueError`, also caught; but a valid
JSON value that is NOT an object makes `cls(**data)` raise
`TypeError`, which the clause does not cover — the uncaught
exception is the `.error` case. -/
def fromJsonlLine (line : String) : Except String (Option Rule) :=
  match parseJson (stripL line.data) with
  | none => .ok none
  | some (.jobj fields) => .ok (validateRule fields)
  | some _ => .error "TypeError: argument after ** must be a mapping"

/-- The loop body of `RuleIndexer.load_rules_from_jsonl`: strip, skip
empty lines, deserialize; a `none` parse is skipped with a warning, a
rule is appended, and an uncaught exception aborts the whole load
(the loop has no `try`). -/
def loadRulesGo : List String → List Rule → Except String (List Rule)
  | [], acc => .ok acc
  | line :: rest, acc =>
    let l := trimS line
    if l == "" then loadRulesGo rest acc
    else
      match fromJsonlLine l with
      | .error e => .error e
      | .ok (some r) => loadRulesGo rest (acc ++ [r])
      | .ok none => loadRulesGo rest acc

/-- `RuleIndexer.load_rules_from_jsonl` over the file's lines. -/
def loadRulesFromJsonl (lines : List String) : Except String (List Rule) :=
  loadRulesGo lines []

/-- The rule a non-raising line contributes, if any. -/
def okParse (l : String) : Option Rule :=
  match fromJsonlLine l with
  | .ok r => r
  | .error _ => none

/-! ### The audit workflow (`graph/state.py`, `graph/nodes.py`,
`graph/workflow.py`)

The LangGraph machine is modelled by its node functions, each returning
a partial state update; `applyUpdate` is the LangGraph merge, where
every field overwrites except `findings`, which is annotated with the
`add` reducer and concatenates.  The external collaborators (PDF
parsing, rule retrieval) are abstracted by a `WorkflowEnv` carrying the
record and rule set their success paths would produce — the scenario of
the determinism claim, which fixes one record and one rule set. -/

structure WorkflowState where
  pdfPath : String
  checkAllRules : Bool
  documentName : Option String
  financialData : Option Record
  parseError : Option String
  retrievedRules : List Rule
  allRules : List Rule
  currentRuleIndex : Nat
  currentRule : Option Rule
  findings : List Finding
  rulesChecked : Nat
  rulesWithViolations : Nat
  report : Option AuditReport
  shouldContinue : Bool
  errorMessage : Option String

/-- `create_initial_state`. -/
def createInitialState (pdfPath : String) (checkAllRules : Bool) : WorkflowState :=
  { pdfPath := pdfPath
    checkAllRules := checkAllRules
    documentName := none
    financialData := none
    parseError := none
    retrievedRules := []
    allRules := []
    currentRuleIndex := 0
    currentRule := none
    findings := []
    rulesChecked := 0
    rulesWithViolations := 0
    report := none
    shouldContinue := true
    errorMessage := none }

/-- A node return value: the dict of state updates.  A `none` field is
a key the node did not include. -/
structure StateUpdate where
  documentName : Option (Option String)
  financialData : Option (Option Record)
  parseError : Option (Option String)
  retrievedRules : Option (List Rule)
  allRules : Option (List Rule)
  currentRuleIndex : Option Nat
  currentRule : Option (Option Rule)
  findings : List Finding
  rulesChecked : Option Nat
  rulesWithViolations : Option Nat
  report : Option (Option AuditReport)
  shouldContinue : Option Bool
  errorMessage : Option (Option String)

def emptyUpdate : StateUpdate :=
  { documentName := none
    financialData := none
    parseError := none
    retrievedRules := none
    allRules := none
    currentRuleIndex := none
    currentRule := none
    findings := []
    rulesChecked := none
    rulesWithViolations := none
    report := none
    shouldContinue := none
    errorMessage := none }

/-- The LangGraph state merge: each present key overwrites, and the
`findings` channel (annotated with `operator.add`) concatenates. -/
def applyUpdate (s : WorkflowState) (u : StateUpdate) : WorkflowState :=
  { pdfPath := s.pdfPath
    checkAllRules := s.checkAllRules
    documentName := u.documentName.getD s.documentName
    financialData := u.financialData.getD s.financialData
    parseError := u.parseError.getD s.parseError
    retrievedRules := u.retrievedRules.getD s.retrievedRules
    allRules := u.allRules.getD s.allRules
    currentRuleIndex := u.currentRuleIndex.getD s.currentRuleIndex
    currentRule := u.currentRule.getD s.currentRule
    findings := s.findings ++ u.findings
    rulesChecked := u.rulesChecked.getD s.rulesChecked
    rulesWithViolations := u.rulesWithViolations.getD s.rulesWithViolations
    report := u.report.getD s.report
    shouldContinue := u.shouldContinue.getD s.shouldContinue
    errorMessage := u.errorMessage.getD s.errorMessage }

/-- The deterministic collaborator outputs for one run: the parsed
document name and record, and the retrieved rule set. -/
structure WorkflowEnv where
  docName : String
  record : Record
  rules : List Rule

/-- `parse_node`, success path: store the parsed document and financial
data. -/
def parseNodeM (env : WorkflowEnv) (_s : WorkflowState) : StateUpdate :=
  { emptyUpdate with
    documentName := some (some env.docName)
    financialData := some (some env.record)
    parseError := some none }

/-- `retrieve_node`, `check_all_rules` success path: load the rule set
and reset the rule index. -/
def retrieveNodeM (env : WorkflowEnv) (_s : WorkflowState) : StateUpdate :=
  { emptyUpdate with
    allRules := some env.rules
    retrievedRules := some env.rules
    currentRuleIndex := some 0 }

/-- `severity_map.get(rule.priority, ViolationSeverity.MEDIUM)`. -/
def severityMap (p : String) : ViolationSeverity :=
  if p == "Critical" then .critical
  else if p == "High" then .high
  else if p == "Medium" then .medium
  else if p == "Low" then .low
  else .medium

/-- The `Finding(...)` built by `audit_node` for a violating outcome. -/
def mkFinding (rule : Rule) (result : EvaluationOutcome) : Finding :=
  { ruleId := rule.ruleId
    ruleSubject := rule.subject
    category := rule.category
    severity := severityMap rule.priority
    logicSchema := rule.logicSchema
    evaluationResult := true
    evidence := result.evidence
    calculatedValue := result.calculated
    thresholdValue := result.threshold
    description := rule.description
    recommendation := ""
    auditProcedures := rule.auditProcedures }

/-- `audit_node`: evaluate one rule, advance the index, and append a
finding when the outcome is violating.  (`evaluate` is total, so the
per-rule `except` branch of the Python node is unreachable in the
model.) -/
def auditNodeM (_env : WorkflowEnv) (s : WorkflowState) : StateUpdate :=
  let rules := s.retrievedRules
  let i := s.currentRuleIndex
  match rules[i]? with
  | none => { emptyUpdate with shouldContinue := some false }
  | some rule =>
    match s.financialData with
    | none =>
      { emptyUpdate with
        currentRuleIndex := some (i + 1)
        rulesChecked := some (s.rulesChecked + 1) }
    | some fd =>
      let result := evaluate rule.logicSchema fd
      { emptyUpdate with
        currentRuleIndex := some (i + 1)
        currentRule := some (some rule)
        rulesChecked := some (s.rulesChecked + 1)
        rulesWithViolations :=
          some (if result.violation then s.rulesWithViolations + 1 else s.rulesWithViolations)
        findings := if result.violation then [mkFinding rule result] else []
        shouldContinue := some (i + 1 < rules.length) }

/-- `report_node`: build the final report from the accumulated findings
and checked count. -/
def reportNodeM (_env : WorkflowEnv) (s : WorkflowState) : StateUpdate :=
  { emptyUpdate with
    report :=
      some (some (createReport (s.documentName.getD "Unknown") s.pdfPath s.findings s.rulesChecked)) }

inductive NodeName where
  | parse | retrieve | audit | report
deriving DecidableEq, Repr

def stepNode (env : WorkflowEnv) (s : WorkflowState) : NodeName → StateUpdate
  | .parse => parseNodeM env s
  | .retrieve => retrieveNodeM env s
  | .audit => auditNodeM env s
  | .report => reportNodeM env s

/-- `should_continue_audit`: the conditional edge out of the audit
node. -/
def shouldContinueAudit (s : WorkflowState) : NodeName :=
  if s.errorMessage.isSome then .report
  else if s.shouldContinue then .audit
  else .report

/-- The graph edges: `parse → retrieve → audit`, the conditional audit
self-loop, and `report → END`. -/
def nextAfter : NodeName → WorkflowState → Option NodeName
  | .parse, _ => some .retrieve
  | .retrieve, _ => some .audit
  | .audit, s => some (shouldContinueAudit s)
  | .report, _ => none

/-- Run the graph from a node, producing both the stream of
`(node, update)` events (what `workflow.stream` yields) and the final
merged state (what `workflow.invoke` returns).  Both modes execute this
same deterministic sequence. -/
def runFrom (env : WorkflowEnv) : Nat → NodeName → WorkflowState →
    List (NodeName × StateUpdate) × WorkflowState
  | 0, _, s => ([], s)
  | f + 1, n, s =>
    let u := stepNode env s n
    let s2 := applyUpdate s u
    match nextAfter n s2 with
    | none => ([(n, u)], s2)
    | some n2 =>
      let res := runFrom env f n2 s2
      ((n, u) :: res.1, res.2)

def workflowFuel (env : WorkflowEnv) : Nat := env.rules.length + 4

/-- Batch mode: `workflow.invoke(initial_state)`. -/
def invokeRun (env : WorkflowEnv) (s0 : WorkflowState) : WorkflowState :=
  (runFrom env (workflowFuel env) .parse s0).2

/-- Stream mode: the events `workflow.stream(initial_state)` yields. -/
def streamEvents (env : WorkflowEnv) (s0 : WorkflowState) : List (NodeName × StateUpdate) :=
  (runFrom env (workflowFuel env) .parse s0).1

/-- What `AuditWorkflowRunner.run(stream=True)` returns: the last
streamed event. -/
def streamLast (env : WorkflowEnv) (s0 : WorkflowState) : Option (NodeName × StateUpdate) :=
  (streamEvents env s0).getLast?

/-- How a comparison with positive infinity on the left resolves, for
the six value comparisons. -/
def infCmpB : CmpOp → Option Bool
  | .gtO => some true
  | .geO => some true
  | .ltO => some false
  | .leO => some false
  | .eqO => some false
  | .neO => some true
  | _ => none

/-! ## Theorems

One theorem (plus witness or counterexample where required) per claim,
with shared helper lemmas. -/

/-- The evidence field of every outcome is the evidence the
substitution fold recorded, whichever branch builds the outcome. -/
theorem evaluate_evidence (s : String) (d : Record) :
    (evaluate s d).evidence = (substituteValues (preprocessL s.data) d).2 := by
  unfold evaluate
  dsimp only
  split
  · rfl
  · split <;> rfl

/-- The substitution fold records evidence independently of the schema
text it is substituting into. -/
theorem substFold_evidence_indep (d : Record) (ks : List String) :
    ∀ (a1 a2 : List Char) (e : List (String × Val)),
      (ks.foldl (substStep d) (a1, e)).2 = (ks.foldl (substStep d) (a2, e)).2 := by
  induction ks with
  | nil => intro a1 a2 e; rfl
  | cons k ks ih =>
    intro a1 a2 e
    simp only [List.foldl_cons]
    unfold substStep
    cases assocFind k d with
    | none => exact ih a1 a2 e
    | some v =>
      by_cases hv : v.isNoneV = true
      · simp only [hv, if_true]
        exact ih a1 a2 e
      · simp only [hv]
        exact ih _ _ _

/-- C2: whenever the outcome of `evaluate` has its error field set, its
violated field is false — no reachable return has both error set and
violated true.  (The "Insufficient data" and exception returns both fix
`violation=False`; the success return fixes `error=None`.) -/
theorem c2_error_implies_not_violated (s : String) (d : Record) :
    (evaluate s d).error ≠ none → (evaluate s d).violation = false := by
  unfold evaluate
  dsimp only
  split
  · intro _; rfl
  · split
    · intro h; exact absurd rfl h
    · intro _; rfl

/-- Witness for C2 at a concrete input whose outcome carries an error:
an unknown ASCII name reaches the interpreter and raises. -/
theorem c2_error_implies_not_violated_witness :
    (evaluate "foo > 1" []).error ≠ none ∧ (evaluate "foo > 1" []).violation = false :=
  ⟨by decide, c2_error_implies_not_violated "foo > 1" [] (by decide)⟩

/-- C1 counterexample: an unparsable expression is a failure mode whose
outcome has NO error set — the structured parse fails, `_safe_eval`
falls back to `_simple_eval`, and `evaluate` returns through the success
branch with `error=None`, contrary to the claim that every failure mode
sets the error field. -/
theorem c1_counterexample :
    parseExpression (substituteValues (preprocessL "???".data) []).1 = none ∧
    (evaluate "???" []).error = none ∧ (evaluate "???" []).violation = false :=
  ⟨rfl, rfl, rfl⟩

/-- C1 amended: `evaluate` is total (never raises), and its error field
is set exactly when the pipeline fails after the completeness check —
data judged missing, or a parsed tree whose interpretation raises.  When
the structured parse itself fails, the simple-comparison fallback
answers and the outcome carries `error=None` with the fallback verdict
as the violated field. -/
theorem c1_amended (s : String) (d : Record) :
    ((evaluate s d).error = none ↔
      (hasMissingDataB (substituteValues (preprocessL s.data) d).1 = false ∧
        (safeEval (substituteValues (preprocessL s.data) d).1).isOk = true))
    ∧ (hasMissingDataB (substituteValues (preprocessL s.data) d).1 = false →
        parseExpression (substituteValues (preprocessL s.data) d).1 = none →
        (evaluate s d).error = none ∧
          (evaluate s d).violation = simpleEvalB (substituteValues (preprocessL s.data) d).1) := by
  constructor
  · unfold evaluate
    dsimp only
    split
    · rename_i h
      simp [h]
    · rename_i h
      split
      · rename_i v h2
        simp only [Bool.not_eq_true] at h
        simp [h, h2, Except.isOk, Except.toBool]
      · rename_i e h2
        simp [h2, Except.isOk, Except.toBool]
  · intro hm hp
    unfold evaluate
    dsimp only
    rw [hm]
    simp only [Bool.false_eq_true, if_false]
    unfold safeEval
    rw [hp]
    exact ⟨rfl, rfl⟩

/-- Witness for C1 amended at the unparsable input, discharging both
hypotheses concretely. -/
theorem c1_amended_witness :
    (evaluate "???" []).error = none ∧ (evaluate "???" []).violation = false :=
  ⟨((c1_amended "???" []).2 rfl rfl).1,
   ((c1_amended "???" []).2 rfl rfl).2.trans rfl⟩

/-- C4 amended: when the completeness scan fires (CJK field names
remain after substitution, with even quote parity), `evaluate` returns
`violated=false`, the insufficient-data error, and `missing_fields`
computed from the preprocessed schema.  The scan recognises only
CJK/underscore tokens, so absent ASCII-named fields do not populate
`missing_fields` (see the counterexample). -/
theorem c4_amended (s : String) (d : Record)
    (h : hasMissingDataB (substituteValues (preprocessL s.data) d).1 = true) :
    (evaluate s d).violation = false ∧
    (evaluate s d).error = some "Insufficient data for evaluation" ∧
    (evaluate s d).missingFields = some (getMissingFields (preprocessL s.data) d) := by
  unfold evaluate
  dsimp only
  rw [h]
  exact ⟨rfl, rfl, rfl⟩

/-- C4 counterexample: an absent ASCII-named field produces an outcome
with `missing_fields` NOT populated (the error field carries an
unknown-name message instead), refuting the claim that every expression
referencing an absent field yields a non-empty `missing_fields`. -/
theorem c4_counterexample :
    (evaluate "missing_field > 100" [("other", Val.num ⟨50, 1⟩)]).missingFields = none ∧
    (evaluate "missing_field > 100" [("other", Val.num ⟨50, 1⟩)]).error
      = some "Unknown name: missing_field" ∧
    (evaluate "missing_field > 100" [("other", Val.num ⟨50, 1⟩)]).violation = false :=
  ⟨rfl, rfl, rfl⟩

/-- Witness for C4 amended: a CJK-named absent field makes the scan
fire and `missing_fields` comes back non-empty. -/
theorem c4_amended_witness :
    (evaluate "资产 > 100" [("other", Val.num ⟨50, 1⟩)]).violation = false ∧
    (evaluate "资产 > 100" [("other", Val.num ⟨50, 1⟩)]).missingFields = some ["资产"] :=
  ⟨(c4_amended "资产 > 100" [("other", Val.num ⟨50, 1⟩)] rfl).1,
   ((c4_amended "资产 > 100" [("other", Val.num ⟨50, 1⟩)] rfl).2.2).trans rfl⟩

/-- C6 counterexample: the record field `y` does not occur in the
expression `x > 0.7`, yet it appears in the returned evidence — the
substitution loop records every non-null field before checking whether
the name occurs in the text. -/
theorem c6_counterexample :
    (evaluate "x > 0.7" [("x", Val.num ⟨77, 100⟩), ("y", Val.num ⟨1, 1⟩)]).evidence
      = [("x", Val.num ⟨77, 100⟩), ("y", Val.num ⟨1, 1⟩)] ∧
    (evaluate "x > 0.7" [("x", Val.num ⟨77, 100⟩), ("y", Val.num ⟨1, 1⟩)]).violation = true :=
  ⟨rfl, rfl⟩

/-- C6 amended: the evidence mapping is a function of the record alone —
it records every non-null field, in descending name-length order,
independent of which names occur in the expression; the spec's example
`evaluate("x > 0.7", {"x": 0.77})` still yields `violated=true` with
`evidence={"x": 0.77}` because that record has no other fields. -/
theorem c6_amended :
    (∀ (s t : String) (d : Record), (evaluate s d).evidence = (evaluate t d).evidence)
    ∧ (evaluate "x > 0.7" [("x", Val.num ⟨77, 100⟩)]).violation = true
    ∧ (evaluate "x > 0.7" [("x", Val.num ⟨77, 100⟩)]).evidence = [("x", Val.num ⟨77, 100⟩)] := by
  refine ⟨?_, rfl, rfl⟩
  intro s t d
  rw [evaluate_evidence, evaluate_evidence]
  unfold substituteValues
  exact substFold_evidence_indep d (sortedKeys d) _ _ []

/-- C3 (code bug): on `COUNT(xs > 0) > 1` with `xs = [5, -3]` the
evaluator reports a violation with no error — the generator loop counts
both elements although only one satisfies the predicate `x > 0` (the
third conjunct), so the claimed count 1 would make `1 > 1` false.  The
loop's own comments promise to skip items that fail the filter, but the
filter branch is a no-op `pass`. -/
theorem c3_count_ignores_predicate :
    (evaluate "COUNT(xs > 0) > 1"
        [("xs", Val.vlist [Val.num ⟨5, 1⟩, Val.num ⟨-3, 1⟩])]).violation = true ∧
    (evaluate "COUNT(xs > 0) > 1"
        [("xs", Val.vlist [Val.num ⟨5, 1⟩, Val.num ⟨-3, 1⟩])]).error = none ∧
    ([Val.num ⟨5, 1⟩, Val.num ⟨-3, 1⟩].countP
        (fun v =>
          match toExt v with
          | some e => extLt (.fin (.ofInt 0)) e
          | none => false)) = 1 :=
  ⟨rfl, rfl, rfl⟩

/-- C7: a division whose right operand evaluates to zero never raises —
the interpreter short-circuits to positive infinity before applying the
operator — and a comparison enclosing that division resolves with
positive infinity as its left operand (`> >= and !=` hold, `< <= ==`
fail, whatever the finite right-hand value). -/
theorem c7_div_zero_infinity (f : Nat) (l r c : Ast) (vl : Val) (q p : PyNum)
    (op : CmpOp) (b : Bool)
    (hl : evalNodeF (f + 1) l = .ok vl) (hr : evalNodeF (f + 1) r = .ok (.num q))
    (hq : q.isZero = true) (hop : infCmpB op = some b)
    (hc : evalNodeF (f + 1) c = .ok (.num p)) :
    evalNodeF (f + 2) (.binop .divO l r) = .ok .inf ∧
    evalNodeF (f + 3) (.compare (.binop .divO l r) [(op, c)]) = .ok (.pbool b) := by
  have hdiv : evalNodeF (f + 2) (.binop .divO l r) = .ok .inf := by
    have e1 : evalNodeF (f + 2) (.binop .divO l r)
        = match evalNodeF (f + 1) l with
          | .error e => .error e
          | .ok lv =>
            match evalNodeF (f + 1) r with
            | .error e => .error e
            | .ok rv => if pyIsZero rv then .ok .inf else applyArith .divO lv rv := rfl
    rw [e1, hl, hr]
    simp [pyIsZero, hq]
  refine ⟨hdiv, ?_⟩
  have e2 : evalNodeF (f + 3) (.compare (.binop .divO l r) [(op, c)])
      = match evalNodeF (f + 2) (.binop .divO l r) with
        | .error e => .error e
        | .ok lv => cmpChainF (f + 2) lv [(op, c)] := rfl
  rw [e2, hdiv]
  show cmpChainF (f + 2) Val.inf [(op, c)] = Except.ok (Val.pbool b)
  have e3 : cmpChainF (f + 2) Val.inf [(op, c)]
      = match evalNodeF (f + 1) c with
        | .error e => .error e
        | .ok rv =>
          match applyCmpF (f + 1) op .inf rv with
          | .error e => .error e
          | .ok bb => if bb then cmpChainF (f + 1) rv [] else .ok (.pbool false) := rfl
  rw [e3, hc]
  cases op <;>
    simp_all [applyCmpF, ordCmp, toExt, extLt, extLe, extEq, infCmpB, cmpChainF, pyEqF]

/-- Witness for C7: `1 / 0 > 10` evaluates to true through the
infinity path. -/
theorem c7_div_zero_infinity_witness :
    evalNodeF 4 (.compare (.binop .divO (.const (.num ⟨1, 1⟩)) (.const (.num ⟨0, 1⟩)))
      [(.gtO, .const (.num ⟨10, 1⟩))]) = .ok (.pbool true) :=
  (c7_div_zero_infinity 1 (.const (.num ⟨1, 1⟩)) (.const (.num ⟨0, 1⟩))
    (.const (.num ⟨10, 1⟩)) (.num ⟨1, 1⟩) ⟨0, 1⟩ ⟨10, 1⟩ .gtO true
    rfl rfl rfl rfl rfl).2

/-- One `add_finding` step: the finding is appended, the total is
incremented, and exactly one severity counter is incremented, all in the
same update. -/
theorem addFinding_step (r : AuditReport) (f : Finding) :
    (r.addFinding f).totalViolations = r.totalViolations + 1 ∧
    (r.addFinding f).findings = r.findings ++ [f] ∧
    (r.addFinding f).criticalCount + (r.addFinding f).highCount
      + (r.addFinding f).mediumCount + (r.addFinding f).lowCount
      = r.criticalCount + r.highCount + r.mediumCount + r.lowCount + 1 := by
  refine ⟨rfl, rfl, ?_⟩
  unfold AuditReport.addFinding
  dsimp only
  cases hs : f.severity <;> simp [hs] <;> omega

/-- Folding `add_finding` over any report adds the findings in order and
shifts the total and the severity-counter sum by the list length. -/
theorem addFinding_foldl (fs : List Finding) : ∀ (r : AuditReport),
    (List.foldl AuditReport.addFinding r fs).totalViolations
      = r.totalViolations + fs.length ∧
    (List.foldl AuditReport.addFinding r fs).findings = r.findings ++ fs ∧
    (List.foldl AuditReport.addFinding r fs).criticalCount
      + (List.foldl AuditReport.addFinding r fs).highCount
      + (List.foldl AuditReport.addFinding r fs).mediumCount
      + (List.foldl AuditReport.addFinding r fs).lowCount
      = r.criticalCount + r.highCount + r.mediumCount + r.lowCount + fs.length := by
  induction fs with
  | nil => intro r; simp
  | cons f fs ih =>
    intro r
    simp only [List.foldl_cons, List.length_cons]
    obtain ⟨h1, h2, h3⟩ := ih (r.addFinding f)
    obtain ⟨s1, s2, s3⟩ := addFinding_step r f
    refine ⟨?_, ?_, ?_⟩
    · rw [h1, s1]; omega
    · rw [h2, s2]; simp
    · rw [h3, s3]; omega

/-- C8: after every sequence of `add_finding` calls on a freshly created
report, `total_violations` equals the number of findings, the severity
counters sum to `total_violations`, and the findings list holds exactly
the added findings in order — each step updates counts and list
together. -/
theorem c8_accumulator_invariant (name path : String) (checked : Nat) (fs : List Finding) :
    (List.foldl AuditReport.addFinding (mkReport name path checked) fs).totalViolations
      = (List.foldl AuditReport.addFinding (mkReport name path checked) fs).findings.length ∧
    (List.foldl AuditReport.addFinding (mkReport name path checked) fs).criticalCount
      + (List.foldl AuditReport.addFinding (mkReport name path checked) fs).highCount
      + (List.foldl AuditReport.addFinding (mkReport name path checked) fs).mediumCount
      + (List.foldl AuditReport.addFinding (mkReport name path checked) fs).lowCount
      = (List.foldl AuditReport.addFinding (mkReport name path checked) fs).totalViolations ∧
    (List.foldl AuditReport.addFinding (mkReport name path checked) fs).findings = fs := by
  obtain ⟨h1, h2, h3⟩ := addFinding_foldl fs (mkReport name path checked)
  refine ⟨?_, ?_, ?_⟩
  · rw [h1, h2]; simp [mkReport]
  · rw [h3, h1]; simp [mkReport]
  · rw [h2]; simp [mkReport]

/-- C9 counterexample: a line of perfectly valid JSON whose top-level
value is a list — `[1, 2]` — aborts the whole load: `json.loads`
succeeds, `cls(**data)` raises `TypeError`, and the `except` clause
covers only `JSONDecodeError` and `ValueError`, so the exception
propagates out of `load_rules_from_jsonl`.  The second conjunct pins
that the line really is valid JSON in the model, and the third that
the fatal line also kills a load whose earlier lines are fine. -/
theorem c9_counterexample :
    loadRulesFromJsonl ["[1, 2]"]
      = .error "TypeError: argument after ** must be a mapping"
    ∧ parseJson ("[1, 2]".data) = some (.jarr [.jnum ['1'], .jnum ['2']])
    ∧ loadRulesFromJsonl ["not json", "[1, 2]"]
      = .error "TypeError: argument after ** must be a mapping" :=
  ⟨rfl, rfl, rfl⟩

/-- C9 amended: the load never raises and skips each malformed line
exactly when no non-empty line is valid JSON with a non-object
top-level value (the one uncaught exception path); then the result is
the well-formed lines in order — strip each line, drop the empty
ones, keep each line the deserializer accepts, skip each line it
rejects. -/
theorem c9_amended (lines : List String)
    (h : ∀ l ∈ lines, (fromJsonlLine (trimS l)).isOk = true) :
    loadRulesFromJsonl lines
      = .ok (((lines.map trimS).filter (fun l => l != "")).filterMap okParse) := by
  have aux : ∀ (ls : List String) (acc : List Rule),
      (∀ l ∈ ls, (fromJsonlLine (trimS l)).isOk = true) →
      loadRulesGo ls acc
        = .ok (acc ++ ((ls.map trimS).filter (fun l => l != "")).filterMap okParse) := by
    intro ls
    induction ls with
    | nil => intro acc _; simp [loadRulesGo]
    | cons x ls ih =>
      intro acc hall
      have hx := hall x (List.mem_cons_self x ls)
      have hls : ∀ l ∈ ls, (fromJsonlLine (trimS l)).isOk = true :=
        fun l hl => hall l (List.mem_cons_of_mem x hl)
      simp only [loadRulesGo, List.map_cons, List.filter_cons]
      by_cases he : trimS x == ""
      · have hne : (trimS x != "") = false := by
          simp only [bne, he, Bool.not_true]
        rw [if_pos he, hne]
        simpa using ih acc hls
      · have hne : (trimS x != "") = true := by
          rw [Bool.not_eq_true] at he
          simp only [bne, he, Bool.not_false]
        rw [if_neg he, hne]
        simp only [if_true, List.filterMap_cons]
        cases hp : fromJsonlLine (trimS x) with
        | error e =>
          rw [hp] at hx
          simp [Except.isOk, Except.toBool] at hx
        | ok r =>
          have hok : okParse (trimS x) = r := by
            unfold okParse
            rw [hp]
          cases r with
          | none =>
            rw [hok]
            dsimp only
            exact ih acc hls
          | some rule =>
            rw [hok]
            dsimp only
            rw [ih (acc ++ [rule]) hls]
            simp
  exact (aux lines [] h).trans (by simp)

set_option maxRecDepth 8192 in
/-- Witness for C9 amended: a good rule line, an undecodable line and a
blank line — none hits the uncaught path, the load succeeds, the good
rule is kept and the bad line is skipped. -/
theorem c9_amended_witness :
    (∀ l ∈ (["\x7b\"rule_id\": \"CL-001\", \"category\": \"CL\", \"subject\": \"s\", \"logic_schema\": \"x > 1\", \"priority\": \"High\", \"description\": \"d\"\x7d",
        "not json", "   "] : List String),
      (fromJsonlLine (trimS l)).isOk = true)
    ∧ loadRulesFromJsonl
        ["\x7b\"rule_id\": \"CL-001\", \"category\": \"CL\", \"subject\": \"s\", \"logic_schema\": \"x > 1\", \"priority\": \"High\", \"description\": \"d\"\x7d",
         "not json", "   "]
      = .ok [⟨"CL-001", "CL", "s", [], "x > 1", "High", "d", "", [], []⟩] :=
  ⟨by decide,
   (c9_amended
     ["\x7b\"rule_id\": \"CL-001\", \"category\": \"CL\", \"subject\": \"s\", \"logic_schema\": \"x > 1\", \"priority\": \"High\", \"description\": \"d\"\x7d",
      "not json", "   "] (by decide)).trans rfl⟩

/-- Entering the report node ends the run with one report event. -/
theorem runFrom_report (env : WorkflowEnv) (f : Nat) (s : WorkflowState) :
    runFrom env (f + 1) .report s
      = ([(.report, reportNodeM env s)], applyUpdate s (reportNodeM env s)) := rfl

/-- The audit self-loop always reaches the report node: with fuel
covering the remaining rules, the run from the audit node is some audit
events followed by exactly one report event, and the final state is the
pre-report state merged with the report update. -/
theorem auditLoop (env : WorkflowEnv) : ∀ (m : Nat) (s : WorkflowState),
    s.errorMessage = none →
    s.retrievedRules.length ≤ s.currentRuleIndex + m →
    ∃ evs sPre, runFrom env (m + 2) .audit s
      = (evs ++ [(.report, reportNodeM env sPre)], applyUpdate sPre (reportNodeM env sPre)) := by
  intro m
  induction m with
  | zero =>
    intro s hErr hLen
    have hga : s.retrievedRules[s.currentRuleIndex]? = none := by
      exact List.getElem?_eq_none (by omega)
    refine ⟨[(.audit, auditNodeM env s)], applyUpdate s (auditNodeM env s), ?_⟩
    show runFrom env 2 .audit s = _
    have hu : auditNodeM env s = { emptyUpdate with shouldContinue := some false } := by
      unfold auditNodeM
      dsimp only
      rw [hga]
    have e1 : runFrom env 2 .audit s
        = match nextAfter .audit (applyUpdate s (auditNodeM env s)) with
          | none => ([(.audit, auditNodeM env s)], applyUpdate s (auditNodeM env s))
          | some n2 =>
            ((.audit, auditNodeM env s) :: (runFrom env 1 n2 (applyUpdate s (auditNodeM env s))).1,
              (runFrom env 1 n2 (applyUpdate s (auditNodeM env s))).2) := rfl
    have hnext : nextAfter .audit (applyUpdate s (auditNodeM env s)) = some .report := by
      unfold nextAfter shouldContinueAudit
      rw [hu]
      simp [applyUpdate, emptyUpdate, hErr]
    rw [e1, hnext]
    rfl
  | succ m ih =>
    intro s hErr hLen
    cases hga : s.retrievedRules[s.currentRuleIndex]? with
    | none =>
      refine ⟨[(.audit, auditNodeM env s)], applyUpdate s (auditNodeM env s), ?_⟩
      have hu : auditNodeM env s = { emptyUpdate with shouldContinue := some false } := by
        unfold auditNodeM
        dsimp only
        rw [hga]
      have e1 : runFrom env (m + 1 + 2) .audit s
          = match nextAfter .audit (applyUpdate s (auditNodeM env s)) with
            | none => ([(.audit, auditNodeM env s)], applyUpdate s (auditNodeM env s))
            | some n2 =>
              ((.audit, auditNodeM env s)
                  :: (runFrom env (m + 2) n2 (applyUpdate s (auditNodeM env s))).1,
                (runFrom env (m + 2) n2 (applyUpdate s (auditNodeM env s))).2) := rfl
      have hnext : nextAfter .audit (applyUpdate s (auditNodeM env s)) = some .report := by
        unfold nextAfter shouldContinueAudit
        rw [hu]
        simp [applyUpdate, emptyUpdate, hErr]
      rw [e1, hnext]
      rfl
    | some rule =>
      have e1 : runFrom env (m + 1 + 2) .audit s
          = match nextAfter .audit (applyUpdate s (auditNodeM env s)) with
            | none => ([(.audit, auditNodeM env s)], applyUpdate s (auditNodeM env s))
            | some n2 =>
              ((.audit, auditNodeM env s)
                  :: (runFrom env (m + 2) n2 (applyUpdate s (auditNodeM env s))).1,
                (runFrom env (m + 2) n2 (applyUpdate s (auditNodeM env s))).2) := rfl
      have hs2err : (applyUpdate s (auditNodeM env s)).errorMessage = none := by
        unfold auditNodeM
        dsimp only
        rw [hga]
        cases hfd : s.financialData <;>
          simp [applyUpdate, emptyUpdate, hErr]
      have hs2rules : (applyUpdate s (auditNodeM env s)).retrievedRules = s.retrievedRules := by
        unfold auditNodeM
        dsimp only
        rw [hga]
        cases hfd : s.financialData <;>
          simp [applyUpdate, emptyUpdate]
      have hs2idx : (applyUpdate s (auditNodeM env s)).currentRuleIndex
          = s.currentRuleIndex + 1 := by
        unfold auditNodeM
        dsimp only
        rw [hga]
        cases hfd : s.financialData <;>
          simp [applyUpdate, emptyUpdate]
      cases hnext : nextAfter .audit (applyUpdate s (auditNodeM env s)) with
      | none => exact absurd hnext (by unfold nextAfter; simp)
      | some n2 =>
        have hn2 : n2 = .audit ∨ n2 = .report := by
          unfold nextAfter shouldContinueAudit at hnext
          dsimp only at hnext
          rw [Option.some_inj] at hnext
          split at hnext
          · exact Or.inr hnext.symm
          · split at hnext
            · exact Or.inl hnext.symm
            · exact Or.inr hnext.symm
        cases hn2 with
        | inl ha =>
          subst ha
          obtain ⟨evs, sPre, he⟩ :=
            ih (applyUpdate s (auditNodeM env s)) hs2err
              (by rw [hs2rules, hs2idx]; omega)
          refine ⟨(.audit, auditNodeM env s) :: evs, sPre, ?_⟩
          rw [e1, hnext]
          dsimp only
          rw [he]
          rfl
        | inr hr =>
          subst hr
          refine ⟨[(.audit, auditNodeM env s)], applyUpdate s (auditNodeM env s), ?_⟩
          rw [e1, hnext]
          rfl

/-- C10: for one (record, rule set) pair, batch mode and streaming mode
agree — the last streamed event is the report node's update and it
carries the same `AuditReport` object (same totals, same findings in
the same order) that the batch-mode final state carries. -/
theorem c10_batch_stream_agree (env : WorkflowEnv) (pdfPath : String) (checkAll : Bool) :
    ∃ u r, streamLast env (createInitialState pdfPath checkAll) = some (.report, u) ∧
      u.report = some (some r) ∧
      (invokeRun env (createInitialState pdfPath checkAll)).report = some r := by
  have s0def : (createInitialState pdfPath checkAll).errorMessage = none := rfl
  have e1 : runFrom env (workflowFuel env) .parse (createInitialState pdfPath checkAll)
      = ((.parse, parseNodeM env (createInitialState pdfPath checkAll))
            :: (runFrom env (env.rules.length + 3) .retrieve
                  (applyUpdate (createInitialState pdfPath checkAll)
                    (parseNodeM env (createInitialState pdfPath checkAll)))).1,
          (runFrom env (env.rules.length + 3) .retrieve
              (applyUpdate (createInitialState pdfPath checkAll)
                (parseNodeM env (createInitialState pdfPath checkAll)))).2) := rfl
  set s1 := applyUpdate (createInitialState pdfPath checkAll)
      (parseNodeM env (createInitialState pdfPath checkAll)) with hs1
  have e2 : runFrom env (env.rules.length + 3) .retrieve s1
      = ((.retrieve, retrieveNodeM env s1)
            :: (runFrom env (env.rules.length + 2) .audit
                  (applyUpdate s1 (retrieveNodeM env s1))).1,
          (runFrom env (env.rules.length + 2) .audit
              (applyUpdate s1 (retrieveNodeM env s1))).2) := rfl
  set s2 := applyUpdate s1 (retrieveNodeM env s1) with hs2
  have hs2err : s2.errorMessage = none := rfl
  have hs2rules : s2.retrievedRules = env.rules := rfl
  have hs2idx : s2.currentRuleIndex = 0 := rfl
  obtain ⟨evs, sPre, he⟩ := auditLoop env env.rules.length s2 hs2err
    (by rw [hs2rules, hs2idx]; omega)
  refine ⟨reportNodeM env sPre,
    createReport (sPre.documentName.getD "Unknown") sPre.pdfPath sPre.findings sPre.rulesChecked,
    ?_, rfl, ?_⟩
  · unfold streamLast streamEvents
    rw [e1, e2, he]
    show ((NodeName.parse, parseNodeM env (createInitialState pdfPath checkAll))
        :: (NodeName.retrieve, retrieveNodeM env s1)
        :: (evs ++ [(NodeName.report, reportNodeM env sPre)])).getLast? = _
    rw [show ((NodeName.parse, parseNodeM env (createInitialState pdfPath checkAll))
        :: (NodeName.retrieve, retrieveNodeM env s1)
        :: (evs ++ [(NodeName.report, reportNodeM env sPre)]))
      = ((NodeName.parse, parseNodeM env (createInitialState pdfPath checkAll))
          :: (NodeName.retrieve, retrieveNodeM env s1) :: evs)
        ++ [(NodeName.report, reportNodeM env sPre)] by simp]
    exact List.getLast?_concat _
  · unfold invokeRun
    rw [e1, e2, he]
    rfl

/-! ### Type soundness of the interpreter on the well-typed fragment -/

theorem toExt_of_numFam (v : Val) (h : v.isNumFam = true) : ∃ e, toExt v = some e := by
  cases v <;> simp_all [Val.isNumFam, toExt]

theorem extToVal_numFam (e : ExtNum) : e.toVal.isNumFam = true := by
  cases e <;> rfl

theorem tyOfVal_sound : ∀ (f : Nat) (v : Val) (t : Ty),
    tyOfValF f v = some t → valHasTy v t = true := by
  intro f
  induction f with
  | zero => intro v t h; simp [tyOfValF] at h
  | succ f ih =>
    intro v t h
    cases v with
    | num q => cases h; rfl
    | inf => cases h; rfl
    | ninf => cases h; rfl
    | nan => cases h; rfl
    | pbool b => cases h; rfl
    | pstr s => cases h; rfl
    | vnone => cases h; rfl
    | vlist elts =>
      cases elts with
      | nil => cases h; rfl
      | cons v0 vs =>
        rw [show tyOfValF (f + 1) (.vlist (v0 :: vs))
            = (match tyOfValF f v0 with
               | some t0 => if vs.all (fun w => valHasTy w t0) then some (.listT t0) else none
               | none => none) from rfl] at h
        cases h0 : tyOfValF f v0 with
        | none => simp [h0] at h
        | some t0 =>
          rw [h0] at h
          dsimp only at h
          by_cases hall : vs.all (fun w => valHasTy w t0) = true
          · rw [if_pos hall] at h
            cases h
            show ((v0 :: vs).all fun w => valHasTy w t0) = true
            simp [List.all_cons, ih v0 t0 h0, hall]
          · rw [if_neg hall] at h; cases h
    | vtup elts =>
      cases elts with
      | nil => cases h; rfl
      | cons v0 vs =>
        rw [show tyOfValF (f + 1) (.vtup (v0 :: vs))
            = (match tyOfValF f v0 with
               | some t0 => if vs.all (fun w => valHasTy w t0) then some (.tupT t0) else none
               | none => none) from rfl] at h
        cases h0 : tyOfValF f v0 with
        | none => simp [h0] at h
        | some t0 =>
          rw [h0] at h
          dsimp only at h
          by_cases hall : vs.all (fun w => valHasTy w t0) = true
          · rw [if_pos hall] at h
            cases h
            show ((v0 :: vs).all fun w => valHasTy w t0) = true
            simp [List.all_cons, ih v0 t0 h0, hall]
          · rw [if_neg hall] at h; cases h

theorem inferChain_boolT : ∀ (chain : List (CmpOp × Ast)) (g : Nat) (tl tres : Ty),
    inferChainF g tl chain = some tres → tres = .boolT := by
  intro chain
  induction chain with
  | nil =>
    intro g tl tres h
    cases g with
    | zero => simp [inferChainF] at h
    | succ g => exact (Option.some_inj.mp h).symm
  | cons pair rest ih =>
    intro g tl tres h
    obtain ⟨op, a⟩ := pair
    cases g with
    | zero => simp [inferChainF] at h
    | succ g =>
      rw [show inferChainF (g + 1) tl ((op, a) :: rest)
          = (match inferTyF g a with
             | some ta => if cmpOpOk op tl ta then inferChainF g ta rest else none
             | none => none) from rfl] at h
      cases hA : inferTyF g a with
      | none => simp [hA] at h
      | some ta =>
        rw [hA] at h
        dsimp only at h
        by_cases hok : cmpOpOk op tl ta = true
        · rw [if_pos hok] at h; exact ih g ta tres h
        · rw [if_neg hok] at h; cases h

theorem valsHaveTys_all (t0 : Ty) : ∀ (vs : List Val) (ts : List Ty),
    valsHaveTys vs ts = true → ts.all (fun u => u == t0) = true →
    vs.all (fun v => valHasTy v t0) = true := by
  intro vs
  induction vs with
  | nil => intro ts _ _; rfl
  | cons v vs ih =>
    intro ts h hall
    cases ts with
    | nil => simp [valsHaveTys] at h
    | cons t ts =>
      simp only [valsHaveTys, Bool.and_eq_true] at h
      simp only [List.all_cons, Bool.and_eq_true] at hall
      have ht : t = t0 := by simpa [beq_iff_eq] using hall.1
      subst ht
      simp [List.all_cons, h.1, ih ts h.2 hall.2]

theorem ordCmp_num_ok (op : CmpOp) (lv rv : Val)
    (hl : lv.isNumFam = true) (hr : rv.isNumFam = true)
    (hord : op = .ltO ∨ op = .leO ∨ op = .gtO ∨ op = .geO) :
    ∃ b, ordCmp op lv rv = .ok b := by
  obtain ⟨a, ha⟩ := toExt_of_numFam lv hl
  obtain ⟨b, hb⟩ := toExt_of_numFam rv hr
  unfold ordCmp
  rw [ha, hb]
  rcases hord with h | h | h | h <;> subst h <;> exact ⟨_, rfl⟩

theorem ordCmp_str_ok (op : CmpOp) (s t : String)
    (hord : op = .ltO ∨ op = .leO ∨ op = .gtO ∨ op = .geO) :
    ∃ b, ordCmp op (.pstr s) (.pstr t) = .ok b := by
  unfold ordCmp
  rcases hord with h | h | h | h <;> subst h <;> exact ⟨_, rfl⟩

theorem applyCmpF_ok (g : Nat) (op : CmpOp) (lv rv : Val) (tl ta : Ty)
    (hl : valHasTy lv tl = true) (hr : valHasTy rv ta = true)
    (hok : cmpOpOk op tl ta = true) :
    ∃ b, applyCmpF g op lv rv = .ok b := by
  cases op with
  | eqO => exact ⟨_, rfl⟩
  | neO => exact ⟨_, rfl⟩
  | isO => exact ⟨_, rfl⟩
  | isNotO => exact ⟨_, rfl⟩
  | inO =>
    cases ta with
    | listT t =>
      cases rv <;> first
        | exact ⟨_, rfl⟩
        | simp [valHasTy] at hr
    | tupT t =>
      cases rv <;> first
        | exact ⟨_, rfl⟩
        | simp [valHasTy] at hr
    | strT =>
      have htl : tl = .strT := by
        simp only [cmpOpOk] at hok
        simpa [beq_iff_eq] using hok
      subst htl
      cases rv <;> simp [valHasTy] at hr
      cases lv <;> simp [valHasTy] at hl
      exact ⟨_, rfl⟩
    | numT => simp [cmpOpOk] at hok
    | boolT => simp [cmpOpOk] at hok
    | noneT => simp [cmpOpOk] at hok
  | notInO =>
    have hin : ∃ b, pyContains g lv rv = .ok b := by
      cases ta with
      | listT t =>
        cases rv <;> first
          | exact ⟨_, rfl⟩
          | simp [valHasTy] at hr
      | tupT t =>
        cases rv <;> first
          | exact ⟨_, rfl⟩
          | simp [valHasTy] at hr
      | strT =>
        have htl : tl = .strT := by
          simp only [cmpOpOk] at hok
          simpa [beq_iff_eq] using hok
        subst htl
        cases rv <;> simp [valHasTy] at hr
        cases lv <;> simp [valHasTy] at hl
        exact ⟨_, rfl⟩
      | numT => simp [cmpOpOk] at hok
      | boolT => simp [cmpOpOk] at hok
      | noneT => simp [cmpOpOk] at hok
    obtain ⟨b, hb⟩ := hin
    refine ⟨!b, ?_⟩
    show (match pyContains g lv rv with
          | .ok b => Except.ok (!b)
          | .error e => .error e) = Except.ok (!b)
    rw [hb]
  | ltO =>
    simp only [cmpOpOk, Bool.or_eq_true, Bool.and_eq_true, beq_iff_eq] at hok
    rcases hok with ⟨h1, h2⟩ | ⟨h1, h2⟩ <;> subst h1 <;> subst h2
    · exact ordCmp_num_ok .ltO lv rv hl hr (by left; rfl)
    · cases lv <;> simp [valHasTy] at hl
      cases rv <;> simp [valHasTy] at hr
      exact ordCmp_str_ok .ltO _ _ (by left; rfl)
  | leO =>
    simp only [cmpOpOk, Bool.or_eq_true, Bool.and_eq_true, beq_iff_eq] at hok
    rcases hok with ⟨h1, h2⟩ | ⟨h1, h2⟩ <;> subst h1 <;> subst h2
    · exact ordCmp_num_ok .leO lv rv hl hr (by right; left; rfl)
    · cases lv <;> simp [valHasTy] at hl
      cases rv <;> simp [valHasTy] at hr
      exact ordCmp_str_ok .leO _ _ (by right; left; rfl)
  | gtO =>
    simp only [cmpOpOk, Bool.or_eq_true, Bool.and_eq_true, beq_iff_eq] at hok
    rcases hok with ⟨h1, h2⟩ | ⟨h1, h2⟩ <;> subst h1 <;> subst h2
    · exact ordCmp_num_ok .gtO lv rv hl hr (by right; right; left; rfl)
    · cases lv <;> simp [valHasTy] at hl
      cases rv <;> simp [valHasTy] at hr
      exact ordCmp_str_ok .gtO _ _ (by right; right; left; rfl)
  | geO =>
    simp only [cmpOpOk, Bool.or_eq_true, Bool.and_eq_true, beq_iff_eq] at hok
    rcases hok with ⟨h1, h2⟩ | ⟨h1, h2⟩ <;> subst h1 <;> subst h2
    · exact ordCmp_num_ok .geO lv rv hl hr (by right; right; right; rfl)
    · cases lv <;> simp [valHasTy] at hl
      cases rv <;> simp [valHasTy] at hr
      exact ordCmp_str_ok .geO _ _ (by right; right; right; rfl)

theorem sumFold_ok : ∀ (vs : List Val) (acc : ExtNum),
    vs.all Val.isNumFam = true → ∃ e, sumFold acc vs = .ok e := by
  intro vs
  induction vs with
  | nil => intro acc _; exact ⟨acc, rfl⟩
  | cons v vs ih =>
    intro acc hall
    simp only [List.all_cons, Bool.and_eq_true] at hall
    obtain ⟨e0, he0⟩ := toExt_of_numFam v hall.1
    rw [show sumFold acc (v :: vs)
        = (match toExt v with
           | some e => sumFold (extAdd acc e) vs
           | none => .error "TypeError: unsupported operand type in sum") from rfl, he0]
    exact ih _ hall.2

theorem applyArith_basic (op : Bop) (lv rv : Val)
    (hl : lv.isNumFam = true) (hr : rv.isNumFam = true)
    (hop : op = .addO ∨ op = .subO ∨ op = .mulO ∨ op = .divO) :
    ∃ u, applyArith op lv rv = .ok u ∧ u.isNumFam = true := by
  obtain ⟨a, ha⟩ := toExt_of_numFam lv hl
  obtain ⟨b, hb⟩ := toExt_of_numFam rv hr
  unfold applyArith
  rw [ha, hb]
  rcases hop with h | h | h | h <;> subst h
  · exact ⟨_, rfl, extToVal_numFam _⟩
  · exact ⟨_, rfl, extToVal_numFam _⟩
  · exact ⟨_, rfl, extToVal_numFam _⟩
  · exact ⟨_, rfl, extToVal_numFam _⟩

theorem applyArith_mod (lv rv : Val)
    (hl : lv.isNumFam = true) (hr : rv.isNumFam = true) (hz : pyIsZero rv = false) :
    ∃ u, applyArith .modO lv rv = .ok u ∧ u.isNumFam = true := by
  obtain ⟨a, ha⟩ := toExt_of_numFam lv hl
  unfold applyArith
  cases rv with
  | num q =>
    rw [ha]
    have hq : q.isZero = false := by simpa [pyIsZero] using hz
    dsimp only [toExt]
    rw [hq]
    refine ⟨(extMod a (.fin q)).toVal, ?_, extToVal_numFam _⟩
    simp
  | inf => rw [ha]; exact ⟨_, rfl, extToVal_numFam _⟩
  | ninf => rw [ha]; exact ⟨_, rfl, extToVal_numFam _⟩
  | nan => rw [ha]; exact ⟨_, rfl, extToVal_numFam _⟩
  | pbool b => simp [Val.isNumFam] at hr
  | pstr s => simp [Val.isNumFam] at hr
  | vnone => simp [Val.isNumFam] at hr
  | vlist l => simp [Val.isNumFam] at hr
  | vtup l => simp [Val.isNumFam] at hr

theorem applyUnop_sign (op : Uop) (v : Val) (hv : v.isNumFam = true)
    (hop : op = .usub ∨ op = .uadd) :
    ∃ u, applyUnop op v = .ok u ∧ u.isNumFam = true := by
  obtain ⟨e, he⟩ := toExt_of_numFam v hv
  unfold applyUnop
  rcases hop with h | h <;> subst h <;> rw [he]
  · exact ⟨_, rfl, extToVal_numFam _⟩
  · exact ⟨_, rfl, extToVal_numFam _⟩

theorem absFn_ok (g : Nat) (v : Val) (hv : v.isNumFam = true) :
    ∃ u, applyFn g "abs" [v] = .ok u ∧ u.isNumFam = true := by
  cases v with
  | num q => exact ⟨_, rfl, rfl⟩
  | inf => exact ⟨_, rfl, rfl⟩
  | ninf => exact ⟨_, rfl, rfl⟩
  | nan => exact ⟨_, rfl, rfl⟩
  | pbool b => exact ⟨_, rfl, rfl⟩
  | pstr s => simp [Val.isNumFam] at hv
  | vnone => simp [Val.isNumFam] at hv
  | vlist l => simp [Val.isNumFam] at hv
  | vtup l => simp [Val.isNumFam] at hv

theorem countFn_ok (g : Nat) (v : Val) :
    ∃ u, applyFn g "COUNT" [v] = .ok u ∧ u.isNumFam = true := by
  cases v <;> exact ⟨_, rfl, rfl⟩

theorem sumFn_ok (g : Nat) (vs : List Val) (hall : vs.all Val.isNumFam = true) :
    ∃ u, applyFn g "sum" [.vlist vs] = .ok u ∧ u.isNumFam = true := by
  obtain ⟨e, he⟩ := sumFold_ok vs (.fin (.ofInt 0)) hall
  refine ⟨e.toVal, ?_, extToVal_numFam _⟩
  show (sumFold (.fin (.ofInt 0)) vs).map ExtNum.toVal = .ok e.toVal
  rw [he]
  rfl

/-- Soundness of the typing judgment: on the well-typed fragment the
interpreter cannot raise — every judgment at fuel `f` guarantees
evaluation at fuel `f` succeeds with a value of the inferred type, and
likewise for argument lists, comparison chains and boolean chains. -/
theorem soundAll : ∀ f : Nat,
    (∀ a t, inferTyF f a = some t → ∃ v, evalNodeF f a = .ok v ∧ valHasTy v t = true)
    ∧ (∀ es ts, inferManyF f es = some ts →
        ∃ vs, evalManyF f es = .ok vs ∧ valsHaveTys vs ts = true)
    ∧ (∀ tl chain lv tres, inferChainF f tl chain = some tres → valHasTy lv tl = true →
        ∃ b, cmpChainF f lv chain = .ok (.pbool b))
    ∧ (∀ es ts, inferManyF f es = some ts → ∃ b, allChainF f es = .ok (.pbool b))
    ∧ (∀ es ts, inferManyF f es = some ts → ∃ b, anyChainF f es = .ok (.pbool b)) := by
  intro f
  induction f with
  | zero =>
    refine ⟨fun a t h => absurd h (by simp [inferTyF]),
            fun es ts h => absurd h (by simp [inferManyF]),
            fun tl chain lv tres h _ => absurd h (by simp [inferChainF]),
            fun es ts h => absurd h (by simp [inferManyF]),
            fun es ts h => absurd h (by simp [inferManyF])⟩
  | succ f ih =>
    obtain ⟨ihA, ihM, ihC, ihAll, ihAny⟩ := ih
    have hMany : ∀ es ts, inferManyF (f + 1) es = some ts →
        ∃ vs, evalManyF (f + 1) es = .ok vs ∧ valsHaveTys vs ts = true := by
      intro es ts h
      cases es with
      | nil =>
        simp [inferManyF] at h
        subst h
        exact ⟨[], rfl, rfl⟩
      | cons a as =>
        rw [show inferManyF (f + 1) (a :: as)
            = (match inferTyF f a, inferManyF f as with
               | some t, some ts => some (t :: ts)
               | _, _ => none) from rfl] at h
        cases hA : inferTyF f a with
        | none => simp [hA] at h
        | some ta =>
          cases hM : inferManyF f as with
          | none => simp [hA, hM] at h
          | some tas =>
            rw [hA, hM] at h
            cases h
            obtain ⟨v, hv, hvt⟩ := ihA a ta hA
            obtain ⟨vs, hvs, hvst⟩ := ihM as tas hM
            refine ⟨v :: vs, ?_, ?_⟩
            · rw [show evalManyF (f + 1) (a :: as)
                  = (match evalNodeF f a with
                     | .error e => .error e
                     | .ok v =>
                       match evalManyF f as with
                       | .error e => .error e
                       | .ok vs => .ok (v :: vs)) from rfl, hv, hvs]
            · simp [valsHaveTys, hvt, hvst]
    have hChain : ∀ tl chain lv tres, inferChainF (f + 1) tl chain = some tres →
        valHasTy lv tl = true → ∃ b, cmpChainF (f + 1) lv chain = .ok (.pbool b) := by
      intro tl chain lv tres h hlv
      cases chain with
      | nil => exact ⟨true, rfl⟩
      | cons pair rest =>
        obtain ⟨op, a⟩ := pair
        rw [show inferChainF (f + 1) tl ((op, a) :: rest)
            = (match inferTyF f a with
               | some ta => if cmpOpOk op tl ta then inferChainF f ta rest else none
               | none => none) from rfl] at h
        cases hA : inferTyF f a with
        | none => simp [hA] at h
        | some ta =>
          rw [hA] at h
          dsimp only at h
          by_cases hok : cmpOpOk op tl ta = true
          · rw [if_pos hok] at h
            obtain ⟨rv, hrv, hrt⟩ := ihA a ta hA
            obtain ⟨bb, hbb⟩ := applyCmpF_ok f op lv rv tl ta hlv hrt hok
            rw [show cmpChainF (f + 1) lv ((op, a) :: rest)
                = (match evalNodeF f a with
                   | .error e => .error e
                   | .ok rv =>
                     match applyCmpF f op lv rv with
                     | .error e => .error e
                     | .ok b => if b then cmpChainF f rv rest else .ok (.pbool false)) from rfl,
              hrv]
            dsimp only
            rw [hbb]
            dsimp only
            cases bb with
            | false => exact ⟨false, rfl⟩
            | true =>
              obtain ⟨b2, hb2⟩ := ihC ta rest rv tres h hrt
              exact ⟨b2, by simpa using hb2⟩
          · rw [if_neg hok] at h
            cases h
    have hAllC : ∀ es ts, inferManyF (f + 1) es = some ts →
        ∃ b, allChainF (f + 1) es = .ok (.pbool b) := by
      intro es ts h
      cases es with
      | nil => exact ⟨true, rfl⟩
      | cons a as =>
        rw [show inferManyF (f + 1) (a :: as)
            = (match inferTyF f a, inferManyF f as with
               | some t, some ts => some (t :: ts)
               | _, _ => none) from rfl] at h
        cases hA : inferTyF f a with
        | none => simp [hA] at h
        | some ta =>
          cases hM : inferManyF f as with
          | none => simp [hA, hM] at h
          | some tas =>
            obtain ⟨v, hv, _⟩ := ihA a ta hA
            rw [show allChainF (f + 1) (a :: as)
                = (match evalNodeF f a with
                   | .error e => .error e
                   | .ok v => if truthy v then allChainF f as else .ok (.pbool false)) from rfl,
              hv]
            cases ht : truthy v with
            | false => exact ⟨false, by simp [ht]⟩
            | true =>
              obtain ⟨b, hb⟩ := ihAll as tas hM
              exact ⟨b, by simp [ht, hb]⟩
    have hAnyC : ∀ es ts, inferManyF (f + 1) es = some ts →
        ∃ b, anyChainF (f + 1) es = .ok (.pbool b) := by
      intro es ts h
      cases es with
      | nil => exact ⟨false, rfl⟩
      | cons a as =>
        rw [show inferManyF (f + 1) (a :: as)
            = (match inferTyF f a, inferManyF f as with
               | some t, some ts => some (t :: ts)
               | _, _ => none) from rfl] at h
        cases hA : inferTyF f a with
        | none => simp [hA] at h
        | some ta =>
          cases hM : inferManyF f as with
          | none => simp [hA, hM] at h
          | some tas =>
            obtain ⟨v, hv, _⟩ := ihA a ta hA
            rw [show anyChainF (f + 1) (a :: as)
                = (match evalNodeF f a with
                   | .error e => .error e
                   | .ok v => if truthy v then .ok (.pbool true) else anyChainF f as) from rfl,
              hv]
            cases ht : truthy v with
            | true => exact ⟨true, by simp [ht]⟩
            | false =>
              obtain ⟨b, hb⟩ := ihAny as tas hM
              exact ⟨b, by simp [ht, hb]⟩
    refine ⟨?_, hMany, hChain, hAllC, hAnyC⟩
    intro a t h
    cases a with
    | const v =>
      rw [show inferTyF (f + 1) (.const v) = tyOfValF f v from rfl] at h
      exact ⟨v, rfl, tyOfVal_sound f v t h⟩
    | name id =>
      rw [show inferTyF (f + 1) (.name id)
          = (if id == "True" || id == "False" then some Ty.boolT
             else if id == "None" then some Ty.noneT else none) from rfl] at h
      have he : evalNodeF (f + 1) (.name id)
          = (if id == "True" then .ok (.pbool true)
             else if id == "False" then .ok (.pbool false)
             else if id == "None" then .ok .vnone
             else .error ("Unknown name: " ++ id)) := rfl
      rw [he]
      cases h1 : (id == "True") with
      | true =>
        rw [h1] at h
        simp only [Bool.true_or, if_true] at h
        cases h
        simp only [h1, if_true]
        exact ⟨.pbool true, rfl, rfl⟩
      | false =>
        cases h2 : (id == "False") with
        | true =>
          rw [h1, h2] at h
          simp only [Bool.false_or, if_true] at h
          cases h
          simp only [h1, h2, if_true, Bool.false_eq_true, if_false]
          exact ⟨.pbool false, rfl, rfl⟩
        | false =>
          cases h3 : (id == "None") with
          | true =>
            rw [h1, h2, h3] at h
            simp only [Bool.false_or, Bool.false_eq_true, if_false, if_true] at h
            cases h
            simp only [h1, h2, h3, Bool.false_eq_true, if_false, if_true]
            exact ⟨.vnone, rfl, rfl⟩
          | false =>
            rw [h1, h2, h3] at h
            simp at h
    | listE es =>
      rw [show inferTyF (f + 1) (.listE es)
          = (match inferManyF f es with
             | some [] => some (.listT .numT)
             | some (t :: ts) => if ts.all (fun u => u == t) then some (.listT t) else none
             | none => none) from rfl] at h
      have he : evalNodeF (f + 1) (.listE es)
          = (match evalManyF f es with
             | .ok vs => .ok (.vlist vs)
             | .error e => .error e) := rfl
      cases hM : inferManyF f es with
      | none => simp [hM] at h
      | some ts' =>
        rw [hM] at h
        obtain ⟨vs, hvs, hvt⟩ := ihM es ts' hM
        cases ts' with
        | nil =>
          cases h
          have hnil : vs = [] := by
            cases vs with
            | nil => rfl
            | cons _ _ => simp [valsHaveTys] at hvt
          subst hnil
          exact ⟨.vlist [], by rw [he, hvs], rfl⟩
        | cons t0 ts0 =>
          dsimp only at h
          by_cases hall : ts0.all (fun u => u == t0) = true
          · rw [if_pos hall] at h
            cases h
            refine ⟨.vlist vs, by rw [he, hvs], ?_⟩
            show (vs.all fun w => valHasTy w t0) = true
            exact valsHaveTys_all t0 vs (t0 :: ts0) hvt (by simp [List.all_cons, hall])
          · rw [if_neg hall] at h
            cases h
    | tupE es =>
      rw [show inferTyF (f + 1) (.tupE es)
          = (match inferManyF f es with
             | some [] => some (.tupT .numT)
             | some (t :: ts) => if ts.all (fun u => u == t) then some (.tupT t) else none
             | none => none) from rfl] at h
      have he : evalNodeF (f + 1) (.tupE es)
          = (match evalManyF f es with
             | .ok vs => .ok (.vtup vs)
             | .error e => .error e) := rfl
      cases hM : inferManyF f es with
      | none => simp [hM] at h
      | some ts' =>
        rw [hM] at h
        obtain ⟨vs, hvs, hvt⟩ := ihM es ts' hM
        cases ts' with
        | nil =>
          cases h
          have hnil : vs = [] := by
            cases vs with
            | nil => rfl
            | cons _ _ => simp [valsHaveTys] at hvt
          subst hnil
          exact ⟨.vtup [], by rw [he, hvs], rfl⟩
        | cons t0 ts0 =>
          dsimp only at h
          by_cases hall : ts0.all (fun u => u == t0) = true
          · rw [if_pos hall] at h
            cases h
            refine ⟨.vtup vs, by rw [he, hvs], ?_⟩
            show (vs.all fun w => valHasTy w t0) = true
            exact valsHaveTys_all t0 vs (t0 :: ts0) hvt (by simp [List.all_cons, hall])
          · rw [if_neg hall] at h
            cases h
    | binop op l r =>
      simp only [inferTyF] at h
      cases hL : inferTyF f l with
      | none => rw [hL] at h; simp at h
      | some tl =>
        cases hR : inferTyF f r with
        | none => rw [hL, hR] at h; simp at h
        | some tr =>
          rw [hL, hR] at h
          dsimp only at h
          by_cases hnum : (tl == Ty.numT && tr == Ty.numT) = true
          · rw [if_pos hnum] at h
            obtain ⟨htl, htr⟩ : tl = Ty.numT ∧ tr = Ty.numT := by
              simpa [Bool.and_eq_true, beq_iff_eq] using hnum
            subst htl
            subst htr
            obtain ⟨lv, hlv, hlt⟩ := ihA l .numT hL
            obtain ⟨rv, hrv, hrt⟩ := ihA r .numT hR
            simp only [evalNodeF]
            rw [hlv, hrv]
            cases op with
            | addO =>
              dsimp only at h ⊢
              cases h
              exact applyArith_basic .addO lv rv hlt hrt (by left; rfl)
            | subO =>
              dsimp only at h ⊢
              cases h
              exact applyArith_basic .subO lv rv hlt hrt (by right; left; rfl)
            | mulO =>
              dsimp only at h ⊢
              cases h
              exact applyArith_basic .mulO lv rv hlt hrt (by right; right; left; rfl)
            | divO =>
              dsimp only at h ⊢
              cases h
              cases hz : pyIsZero rv with
              | true => exact ⟨.inf, by simp [hz], rfl⟩
              | false =>
                obtain ⟨u, hu, hun⟩ :=
                  applyArith_basic .divO lv rv hlt hrt (by right; right; right; rfl)
                exact ⟨u, by simp [hz, hu], hun⟩
            | modO =>
              dsimp only at h ⊢
              rw [hrv] at h
              dsimp only at h
              cases hz : pyIsZero rv with
              | true => rw [hz] at h; simp at h
              | false =>
                rw [hz] at h
                simp only [Bool.false_eq_true, if_false, if_true] at h
                cases h
                exact applyArith_mod lv rv hlt hrt hz
            | powO => dsimp only at h; cases h
            | fdivO => dsimp only at h; cases h
          · rw [if_neg hnum] at h
            cases h
    | unop op e =>
      simp only [inferTyF] at h
      cases hE : inferTyF f e with
      | none => rw [hE] at h; simp at h
      | some te =>
        rw [hE] at h
        dsimp only at h
        obtain ⟨v, hv, hvt⟩ := ihA e te hE
        simp only [evalNodeF]
        rw [hv]
        cases op with
        | notO =>
          dsimp only at h ⊢
          cases h
          exact ⟨.pbool (!truthy v), rfl, rfl⟩
        | usub =>
          dsimp only at h ⊢
          by_cases hnum : (te == Ty.numT) = true
          · rw [if_pos hnum] at h
            cases h
            have hte : te = Ty.numT := by simpa [beq_iff_eq] using hnum
            subst hte
            exact applyUnop_sign .usub v hvt (by left; rfl)
          · rw [if_neg hnum] at h
            cases h
        | uadd =>
          dsimp only at h ⊢
          by_cases hnum : (te == Ty.numT) = true
          · rw [if_pos hnum] at h
            cases h
            have hte : te = Ty.numT := by simpa [beq_iff_eq] using hnum
            subst hte
            exact applyUnop_sign .uadd v hvt (by right; rfl)
          · rw [if_neg hnum] at h
            cases h
    | compare l chain =>
      rw [show inferTyF (f + 1) (.compare l chain)
          = (match inferTyF f l with
             | some tl => inferChainF f tl chain
             | none => none) from rfl] at h
      cases hL : inferTyF f l with
      | none => simp [hL] at h
      | some tl =>
        rw [hL] at h
        obtain ⟨lv, hlv, hlt⟩ := ihA l tl hL
        obtain ⟨b, hb⟩ := ihC tl chain lv t h hlt
        have ht : t = Ty.boolT := inferChain_boolT chain f tl t h
        subst ht
        have he : evalNodeF (f + 1) (.compare l chain)
            = (match evalNodeF f l with
               | .error e => .error e
               | .ok lv => cmpChainF f lv chain) := rfl
        rw [he, hlv]
        exact ⟨.pbool b, hb, rfl⟩
    | boolop isAnd vs =>
      rw [show inferTyF (f + 1) (.boolop isAnd vs)
          = (match inferManyF f vs with
             | some _ => some Ty.boolT
             | none => none) from rfl] at h
      cases hM : inferManyF f vs with
      | none => simp [hM] at h
      | some ts' =>
        rw [hM] at h
        cases h
        have he : evalNodeF (f + 1) (.boolop isAnd vs)
            = (if isAnd then allChainF f vs else anyChainF f vs) := rfl
        rw [he]
        cases isAnd with
        | true =>
          obtain ⟨b, hb⟩ := ihAll vs ts' hM
          exact ⟨.pbool b, by simpa using hb, rfl⟩
        | false =>
          obtain ⟨b, hb⟩ := ihAny vs ts' hM
          exact ⟨.pbool b, by simpa using hb, rfl⟩
    | call fn args =>
      cases fn with
      | name w =>
        cases args with
        | nil => simp [inferTyF] at h
        | cons a args' =>
          cases args' with
          | cons _ _ => simp [inferTyF] at h
          | nil =>
            rw [show inferTyF (f + 1) (.call (.name w) [a])
                = (match inferManyF f [a] with
                   | some [ta] =>
                     if w == "abs" then if ta == .numT then some .numT else none
                     else if w == "sum" then
                       if ta == .listT .numT then some .numT else none
                     else if w == "len" then
                       match ta with
                       | .listT _ => some .numT
                       | .tupT _ => some .numT
                       | .strT => some .numT
                       | _ => none
                     else if w == "COUNT" then some .numT
                     else none
                   | _ => none) from rfl] at h
            cases hM : inferManyF f [a] with
            | none => simp [hM] at h
            | some ts' =>
              rw [hM] at h
              cases ts' with
              | nil => simp at h
              | cons ta ts0 =>
                cases ts0 with
                | cons _ _ => simp at h
                | nil =>
                  dsimp only at h
                  obtain ⟨vs, hvs, hvt⟩ := ihM [a] [ta] hM
                  cases vs with
                  | nil => simp [valsHaveTys] at hvt
                  | cons v vs0 =>
                    cases vs0 with
                    | cons _ _ => simp [valsHaveTys] at hvt
                    | nil =>
                      simp only [valsHaveTys, Bool.and_eq_true] at hvt
                      have hvt1 := hvt.1
                      have he : evalNodeF (f + 1) (.call (.name w) [a])
                          = (if isSafeFn w then
                               match evalManyF f [a] with
                               | .error e => .error e
                               | .ok vs => applyFn f w vs
                             else .error ("Unsupported function: " ++ w)) := rfl
                      cases hw1 : (w == "abs") with
                      | true =>
                        have hwe : w = "abs" := by simpa [beq_iff_eq] using hw1
                        subst hwe
                        rw [hw1] at h
                        simp only [if_true] at h
                        by_cases hta : (ta == Ty.numT) = true
                        · rw [if_pos hta] at h
                          cases h
                          have hta2 : ta = Ty.numT := by simpa [beq_iff_eq] using hta
                          subst hta2
                          rw [he]
                          simp only [show isSafeFn "abs" = true from rfl, if_true]
                          rw [hvs]
                          exact absFn_ok f v hvt1
                        · rw [if_neg hta] at h
                          cases h
                      | false =>
                        cases hw2 : (w == "sum") with
                        | true =>
                          have hwe : w = "sum" := by simpa [beq_iff_eq] using hw2
                          subst hwe
                          rw [hw1, hw2] at h
                          simp only [Bool.false_eq_true, if_false, if_true] at h
                          by_cases hta : (ta == Ty.listT Ty.numT) = true
                          · rw [if_pos hta] at h
                            cases h
                            have hta2 : ta = Ty.listT Ty.numT := by
                              simpa [beq_iff_eq] using hta
                            subst hta2
                            rw [he]
                            simp only [show isSafeFn "sum" = true from rfl, if_true]
                            rw [hvs]
                            cases v with
                            | vlist xs => exact sumFn_ok f xs hvt1
                            | num q => simp [valHasTy] at hvt1
                            | inf => simp [valHasTy] at hvt1
                            | ninf => simp [valHasTy] at hvt1
                            | nan => simp [valHasTy] at hvt1
                            | pbool b => simp [valHasTy] at hvt1
                            | pstr s => simp [valHasTy] at hvt1
                            | vnone => simp [valHasTy] at hvt1
                            | vtup xs => simp [valHasTy] at hvt1
                          · rw [if_neg hta] at h
                            cases h
                        | false =>
                          cases hw3 : (w == "len") with
                          | true =>
                            have hwe : w = "len" := by simpa [beq_iff_eq] using hw3
                            subst hwe
                            rw [hw1, hw2, hw3] at h
                            simp only [Bool.false_eq_true, if_false, if_true] at h
                            rw [he]
                            simp only [show isSafeFn "len" = true from rfl, if_true]
                            rw [hvs]
                            cases ta with
                            | listT t1 =>
                              cases h
                              cases v with
                              | vlist xs => exact ⟨_, rfl, rfl⟩
                              | num q => simp [valHasTy] at hvt1
                              | inf => simp [valHasTy] at hvt1
                              | ninf => simp [valHasTy] at hvt1
                              | nan => simp [valHasTy] at hvt1
                              | pbool b => simp [valHasTy] at hvt1
                              | pstr s => simp [valHasTy] at hvt1
                              | vnone => simp [valHasTy] at hvt1
                              | vtup xs => simp [valHasTy] at hvt1
                            | tupT t1 =>
                              cases h
                              cases v with
                              | vtup xs => exact ⟨_, rfl, rfl⟩
                              | num q => simp [valHasTy] at hvt1
                              | inf => simp [valHasTy] at hvt1
                              | ninf => simp [valHasTy] at hvt1
                              | nan => simp [valHasTy] at hvt1
                              | pbool b => simp [valHasTy] at hvt1
                              | pstr s => simp [valHasTy] at hvt1
                              | vnone => simp [valHasTy] at hvt1
                              | vlist xs => simp [valHasTy] at hvt1
                            | strT =>
                              cases h
                              cases v with
                              | pstr s => exact ⟨_, rfl, rfl⟩
                              | num q => simp [valHasTy] at hvt1
                              | inf => simp [valHasTy] at hvt1
                              | ninf => simp [valHasTy] at hvt1
                              | nan => simp [valHasTy] at hvt1
                              | pbool b => simp [valHasTy] at hvt1
                              | vnone => simp [valHasTy] at hvt1
                              | vlist xs => simp [valHasTy] at hvt1
                              | vtup xs => simp [valHasTy] at hvt1
                            | numT => simp at h
                            | boolT => simp at h
                            | noneT => simp at h
                          | false =>
                            cases hw4 : (w == "COUNT") with
                            | true =>
                              have hwe : w = "COUNT" := by simpa [beq_iff_eq] using hw4
                              subst hwe
                              rw [hw1, hw2, hw3, hw4] at h
                              simp only [Bool.false_eq_true, if_false, if_true] at h
                              cases h
                              rw [he]
                              simp only [show isSafeFn "COUNT" = true from rfl, if_true]
                              rw [hvs]
                              exact countFn_ok f v
                            | false =>
                              rw [hw1, hw2, hw3, hw4] at h
                              simp at h
      | const v => simp [inferTyF] at h
      | listE es => simp [inferTyF] at h
      | tupE es => simp [inferTyF] at h
      | binop op l r => simp [inferTyF] at h
      | unop op e => simp [inferTyF] at h
      | compare l c => simp [inferTyF] at h
      | boolop i vs => simp [inferTyF] at h
      | call f2 a2 => simp [inferTyF] at h
      | ifexp t2 b2 e2 => simp [inferTyF] at h
      | genexp e2 v2 i2 f2 => simp [inferTyF] at h
      | listcomp e2 v2 i2 f2 => simp [inferTyF] at h
    | ifexp t2 b2 e2 =>
      simp only [inferTyF] at h
      cases hT : inferTyF f t2 with
      | none => rw [hT] at h; simp at h
      | some tt =>
        cases hB : inferTyF f b2 with
        | none => rw [hT, hB] at h; simp at h
        | some tb =>
          cases hE : inferTyF f e2 with
          | none => rw [hT, hB, hE] at h; simp at h
          | some te =>
            rw [hT, hB, hE] at h
            dsimp only at h
            by_cases hbe : (tb == te) = true
            · rw [if_pos hbe] at h
              have hbe2 : tb = te := by simpa [beq_iff_eq] using hbe
              subst hbe2
              cases h
              obtain ⟨tv, htv, _⟩ := ihA t2 tt hT
              obtain ⟨bv, hbv, hbt⟩ := ihA b2 t hB
              obtain ⟨ev, hev, het⟩ := ihA e2 t hE
              simp only [evalNodeF]
              rw [htv]
              dsimp only
              cases ht : truthy tv with
              | true => exact ⟨bv, by simp [ht, hbv], hbt⟩
              | false => exact ⟨ev, by simp [ht, hev], het⟩
            · rw [if_neg hbe] at h
              cases h
    | genexp elt var iter ifs =>
      rw [show inferTyF (f + 1) (.genexp elt var iter ifs)
          = (match inferTyF f elt, inferTyF f iter with
             | some te, some ti =>
               match ti with
               | .listT _ => some (.listT te)
               | .tupT _ => some (.listT te)
               | .strT => some (.listT te)
               | _ => none
             | _, _ => none) from rfl] at h
      cases hE : inferTyF f elt with
      | none => simp [hE] at h
      | some te =>
        cases hI : inferTyF f iter with
        | none => simp [hE, hI] at h
        | some ti =>
          rw [hE, hI] at h
          dsimp only at h
          obtain ⟨v, hv, hvt⟩ := ihA elt te hE
          obtain ⟨itv, hitv, hitt⟩ := ihA iter ti hI
          have he : evalNodeF (f + 1) (.genexp elt var iter ifs)
              = (match evalNodeF f iter with
                 | .error e => .error e
                 | .ok itv =>
                   match seqElems itv with
                   | none => .error "TypeError: object is not iterable"
                   | some xs =>
                     match xs with
                     | [] => .ok (.vlist [])
                     | _ :: _ =>
                       match evalNodeF f elt with
                       | .error e => .error e
                       | .ok v => .ok (.vlist (xs.map (fun _ => v)))) := rfl
          have hmapAll : ∀ (xs : List Val),
              ((xs.map (fun _ => v)).all fun w => valHasTy w te) = true := by
            intro xs
            simp only [List.all_eq_true]
            intro w hw
            simp only [List.mem_map] at hw
            obtain ⟨_, _, hww⟩ := hw
            exact hww ▸ hvt
          cases ti with
          | listT t1 =>
            cases h
            rw [he, hitv]
            cases itv with
            | vlist xs =>
              dsimp only [seqElems]
              cases xs with
              | nil => exact ⟨.vlist [], rfl, rfl⟩
              | cons x xs' =>
                rw [hv]
                exact ⟨_, rfl, hmapAll (x :: xs')⟩
            | num q => simp [valHasTy] at hitt
            | inf => simp [valHasTy] at hitt
            | ninf => simp [valHasTy] at hitt
            | nan => simp [valHasTy] at hitt
            | pbool b => simp [valHasTy] at hitt
            | pstr s => simp [valHasTy] at hitt
            | vnone => simp [valHasTy] at hitt
            | vtup xs => simp [valHasTy] at hitt
          | tupT t1 =>
            cases h
            rw [he, hitv]
            cases itv with
            | vtup xs =>
              dsimp only [seqElems]
              cases xs with
              | nil => exact ⟨.vlist [], rfl, rfl⟩
              | cons x xs' =>
                rw [hv]
                exact ⟨_, rfl, hmapAll (x :: xs')⟩
            | num q => simp [valHasTy] at hitt
            | inf => simp [valHasTy] at hitt
            | ninf => simp [valHasTy] at hitt
            | nan => simp [valHasTy] at hitt
            | pbool b => simp [valHasTy] at hitt
            | pstr s => simp [valHasTy] at hitt
            | vnone => simp [valHasTy] at hitt
            | vlist xs => simp [valHasTy] at hitt
          | strT =>
            cases h
            rw [he, hitv]
            cases itv with
            | pstr s =>
              dsimp only [seqElems]
              cases hxs : s.data.map (fun _ => Val.vnone) with
              | nil => exact ⟨.vlist [], rfl, rfl⟩
              | cons x xs' =>
                rw [hv]
                exact ⟨_, rfl, hmapAll (x :: xs')⟩
            | num q => simp [valHasTy] at hitt
            | inf => simp [valHasTy] at hitt
            | ninf => simp [valHasTy] at hitt
            | nan => simp [valHasTy] at hitt
            | pbool b => simp [valHasTy] at hitt
            | vnone => simp [valHasTy] at hitt
            | vlist xs => simp [valHasTy] at hitt
            | vtup xs => simp [valHasTy] at hitt
          | numT => simp at h
          | boolT => simp at h
          | noneT => simp at h
    | listcomp e2 v2 i2 f2 => simp [inferTyF] at h

/-- C5 counterexample: the record binds every referenced field (`x`) to a
well-formed number and the expression `x % 0 == 0` is inside the grammar
the interpreter supports (`%` is in the operator table), yet `evaluate`
returns a non-`None` error: the modulo guard is missing, so
`5 % 0` raises and the `try`/`except` surfaces the message. -/
theorem c5_counterexample :
    (evaluate "x % 0 == 0" [("x", Val.num ⟨5, 1⟩)]).error
      = some "integer division or modulo by zero" := rfl

/-- C5 amended: on the well-typed fragment delimited by the typing
judgment `inferTyF` (numeric arithmetic with nonzero modulo divisors,
comparisons, boolean connectives, the supported call forms), whenever
the substituted schema has no missing data and parses, `evaluate`
returns an outcome with `error = none`. -/
theorem c5_amended (s : String) (d : Record) (a : Ast) (t : Ty)
    (hmiss : hasMissingDataB (substituteValues (preprocessL s.data) d).1 = false)
    (hp : parseExpression (substituteValues (preprocessL s.data) d).1 = some a)
    (ht : inferTyF (evalFuelFor (substituteValues (preprocessL s.data) d).1) a = some t) :
    (evaluate s d).error = none := by
  obtain ⟨v, hv, _⟩ :=
    (soundAll (evalFuelFor (substituteValues (preprocessL s.data) d).1)).1 a t ht
  unfold evaluate
  dsimp only
  simp only [hmiss, Bool.false_eq_true, if_false]
  unfold safeEval
  rw [hp]
  dsimp only
  rw [hv]

/-- Witness for C5 amended: the schema `x > 0.5` with `x = 1` substitutes
to `1 > 0.5`, which parses to a comparison the typing judgment accepts,
and `evaluate` indeed reports no error. -/
theorem c5_amended_witness :
    hasMissingDataB (substituteValues (preprocessL ("x > 0.5").data)
        [("x", Val.num ⟨1, 1⟩)]).1 = false
    ∧ (evaluate "x > 0.5" [("x", Val.num ⟨1, 1⟩)]).error = none :=
  ⟨rfl,
   c5_amended "x > 0.5" [("x", Val.num ⟨1, 1⟩)]
     (.compare (.const (.num ⟨1, 1⟩)) [(.gtO, .const (.num ⟨5, 10⟩))]) .boolT
     rfl rfl rfl⟩

end EagleEye
